import Mathlib

/-!
Verification of the Synai Prompt & Context Factory (SPCF) operation-log and
pipeline model against its natural-language specification.

The Lean definitions below are a shallow embedding of the Python sources
(`db_manager.py`, `utils.py`, `user_manager.py`, `context_processor.py`,
`prompt_manager.py`, `llm_orchestrator.py`, `pipelines.py`):

* pure functions become Lean functions;
* the SQLite operations log becomes an explicit record list with an
  insertion counter; the per-user query (`ORDER BY timestamp DESC`) is
  modelled as a relation, because SQLite leaves the relative order of rows
  with equal `timestamp` values unspecified;
* filesystem state is explicit (`FS`): a set of directories plus a map from
  file paths to contents, where a content of `none` models a file that is
  present but whose read fails at the OS level (permissions, disk fault);
* the wall clock is an input: every call that reads the clock in Python
  receives the clock value as an explicit argument here;
* fallible Python code (functions that raise) returns `Except Err`;
* `json.dumps` / `json.loads` are modelled by an executable serializer and
  parser for the payload shapes the program stores (flat string-keyed
  objects with null / bool / int / string values);
* `xml.etree.ElementTree` is modelled by an executable parser and printer
  for an XML fragment (tagged elements with text and child elements;
  attributes, comments, declarations and entity references are outside the
  fragment);
* SHA-256 (`hashlib.sha256`) is implemented in full over `Nat` words.
-/

namespace SPCF

set_option maxRecDepth 10000

/-! ## JSON payload model

`db_manager.log_operation` serializes the optional `input_params` /
`output_ref` dictionaries with `json.dumps`, and `get_operations_for_user`
parses them back with `json.loads`.  Every payload the program passes is a
flat dict whose keys are strings and whose values are strings, ints or
bools, so the model's value type covers exactly those shapes (plus `null`).
-/

/-- A JSON primitive value as it appears in the operation-log payloads. -/
inductive JPrim where
  | null
  | bool (b : Bool)
  | int (n : Int)
  | str (s : String)
deriving DecidableEq

/-- A JSON object (a Python dict), as a key/value association list. -/
abbrev JObj := List (String × JPrim)

/-- Lower-case hexadecimal digit character for `d < 16`. -/
def hexDig (d : Nat) : Char :=
  if d < 10 then Char.ofNat (48 + d) else Char.ofNat (87 + d)

/-- Decimal digit character for `d < 10`. -/
def decDig (d : Nat) : Char := Char.ofNat (48 + d)

/-- One character of a JSON string body, escaped the way `json.dumps`
escapes it: quote, backslash and the named control characters get
two-character escapes, the remaining control characters get a `\u00XX`
escape.  (`json.dumps` additionally `\u`-escapes non-ASCII characters
because `ensure_ascii` defaults to true; that choice among equivalent JSON
encodings is invisible to every claim, since the stored text is only ever
read back by `json.loads`.) -/
def escChar (c : Char) : List Char :=
  if c = '\"' then ['\\', '\"']
  else if c = '\\' then ['\\', '\\']
  else if c = '\n' then ['\\', 'n']
  else if c = '\t' then ['\\', 't']
  else if c = '\r' then ['\\', 'r']
  else if c = '\x08' then ['\\', 'b']
  else if c = '\x0c' then ['\\', 'f']
  else if c.toNat < 32 then
    ['\\', 'u', '0', '0', hexDig (c.toNat / 16), hexDig (c.toNat % 16)]
  else [c]

/-- Escape a whole character list (string body). -/
def escList : List Char → List Char
  | [] => []
  | c :: cs => escChar c ++ escList cs

/-- A JSON string literal: quote, escaped body, quote. -/
def dumpStrL (s : String) : List Char :=
  '\"' :: (escList s.data ++ ['\"'])

/-- Decimal digit list of a natural number, most significant first
(fuel-bounded structural recursion; `natDigs` supplies ample fuel). -/
def natDigsAux : Nat → Nat → List Char
  | 0, _ => []
  | fuel + 1, n =>
    if n < 10 then [decDig n]
    else natDigsAux fuel (n / 10) ++ [decDig (n % 10)]

def natDigs (n : Nat) : List Char := natDigsAux (n + 1) n

theorem natDigsAux_fuel_irrel : ∀ (fuel fuel' n : Nat), n < fuel → n < fuel' →
    natDigsAux fuel n = natDigsAux fuel' n := by
  intro fuel
  induction fuel with
  | zero => intro fuel' n h; omega
  | succ f ih =>
    intro fuel' n h h'
    cases fuel' with
    | zero => omega
    | succ f' =>
      rw [natDigsAux, natDigsAux]
      by_cases h10 : n < 10
      · rw [if_pos h10, if_pos h10]
      · rw [if_neg h10, if_neg h10, ih f' (n / 10) (by omega) (by omega)]

/-- The defining recurrence of `natDigs`. -/
theorem natDigs_eq (n : Nat) : natDigs n
    = if n < 10 then [decDig n] else natDigs (n / 10) ++ [decDig (n % 10)] := by
  rw [natDigs, natDigsAux]
  by_cases h10 : n < 10
  · rw [if_pos h10, if_pos h10]
  · rw [if_neg h10, if_neg h10, natDigs,
      natDigsAux_fuel_irrel n (n / 10 + 1) (n / 10) (by omega) (by omega)]

/-- Decimal character list of an integer (Python `repr` of an `int`). -/
def intDecL (n : Int) : List Char :=
  if n < 0 then '-' :: natDigs n.natAbs else natDigs n.natAbs

/-- Serialize one primitive value as `json.dumps` renders it. -/
def dumpPrimL : JPrim → List Char
  | .null => "null".data
  | .bool true => "true".data
  | .bool false => "false".data
  | .int n => intDecL n
  | .str s => dumpStrL s

/-- One `"key": value` member. -/
def dumpPairL (kv : String × JPrim) : List Char :=
  dumpStrL kv.1 ++ ':' :: ' ' :: dumpPrimL kv.2

/-- Members after the first one, each preceded by the `", "` separator
(`json.dumps` uses `(', ', ': ')` as its default separators). -/
def dumpMoreL : JObj → List Char
  | [] => []
  | kv :: rest => ',' :: ' ' :: (dumpPairL kv ++ dumpMoreL rest)

/-- All members of an object, separated by `", "`. -/
def dumpPairsL : JObj → List Char
  | [] => []
  | kv :: rest => dumpPairL kv ++ dumpMoreL rest

/-- `json.dumps` on a flat dict. -/
def dumps (m : JObj) : String :=
  String.mk ('\x7b' :: (dumpPairsL m ++ ['\x7d']))

/-- JSON whitespace (as accepted between tokens by `json.loads`). -/
def jWs (c : Char) : Bool :=
  c = ' ' || c = '\t' || c = '\n' || c = '\r'

/-- Skip leading JSON whitespace. -/
def skipWs : List Char → List Char
  | [] => []
  | c :: cs => if jWs c then skipWs cs else c :: cs

/-- Value of a hexadecimal digit character, if it is one. -/
def hexVal (c : Char) : Option Nat :=
  if 48 ≤ c.toNat ∧ c.toNat ≤ 57 then some (c.toNat - 48)
  else if 97 ≤ c.toNat ∧ c.toNat ≤ 102 then some (c.toNat - 87)
  else if 65 ≤ c.toNat ∧ c.toNat ≤ 70 then some (c.toNat - 55)
  else none

/-- The single-character escapes `json.loads` accepts after a backslash. -/
def unescChar : Char → Option Char
  | '\"' => some '\"'
  | '\\' => some '\\'
  | '/' => some '/'
  | 'n' => some '\n'
  | 't' => some '\t'
  | 'r' => some '\r'
  | 'b' => some '\x08'
  | 'f' => some '\x0c'
  | _ => none

/-- Parse a JSON string body after the opening quote, accumulating
characters until the closing quote. -/
def parseJStrAux (acc : List Char) : List Char → Option (String × List Char)
  | '\"' :: cs => some (String.mk acc.reverse, cs)
  | '\\' :: 'u' :: h1 :: h2 :: h3 :: h4 :: rest =>
    match hexVal h1, hexVal h2, hexVal h3, hexVal h4 with
    | some a, some b, some x, some d =>
        parseJStrAux (Char.ofNat (((a * 16 + b) * 16 + x) * 16 + d) :: acc) rest
    | _, _, _, _ => none
  | '\\' :: e :: rest =>
    match unescChar e with
    | some ch => parseJStrAux (ch :: acc) rest
    | none => none
  | ['\\'] => none
  | c :: cs => parseJStrAux (c :: acc) cs
  | [] => none

/-- Decimal digit test. -/
def isDec (c : Char) : Bool := 48 ≤ c.toNat && c.toNat ≤ 57

/-- Split a leading run of decimal digits from the rest. -/
def grabDigs : List Char → List Char × List Char
  | [] => ([], [])
  | c :: cs =>
    if isDec c then
      let (ds, r) := grabDigs cs
      (c :: ds, r)
    else ([], c :: cs)

/-- Numeric value of a digit run. -/
def digsVal (ds : List Char) : Nat :=
  ds.foldl (fun a c => a * 10 + (c.toNat - 48)) 0

/-- Parse one primitive JSON value.  (Fractions and exponents are outside
the model: the stored payloads never contain floats.) -/
def parsePrim : List Char → Option (JPrim × List Char)
  | 'n' :: 'u' :: 'l' :: 'l' :: rest => some (.null, rest)
  | 't' :: 'r' :: 'u' :: 'e' :: rest => some (.bool true, rest)
  | 'f' :: 'a' :: 'l' :: 's' :: 'e' :: rest => some (.bool false, rest)
  | '\"' :: cs =>
    match parseJStrAux [] cs with
    | some (s, r) => some (.str s, r)
    | none => none
  | '-' :: cs =>
    match grabDigs cs with
    | (ds, r) => if ds = [] then none else some (.int (-(digsVal ds : Int)), r)
  | cs =>
    match grabDigs cs with
    | (ds, r) => if ds = [] then none else some (.int (digsVal ds : Int), r)

/-- Parse the members of an object after the opening brace (fuel-bounded;
one unit of fuel per member suffices). -/
def parsePairsAux : Nat → List Char → Option (JObj × List Char)
  | 0, _ => none
  | fuel + 1, cs =>
    match skipWs cs with
    | '\"' :: r0 =>
      match parseJStrAux [] r0 with
      | some (k, r1) =>
        match skipWs r1 with
        | ':' :: r2 =>
          match parsePrim (skipWs r2) with
          | some (v, r3) =>
            match skipWs r3 with
            | ',' :: r4 =>
              match parsePairsAux fuel r4 with
              | some (more, r5) => some ((k, v) :: more, r5)
              | none => none
            | '\x7d' :: r4 => some ([(k, v)], r4)
            | _ => none
          | none => none
        | _ => none
      | none => none
    | _ => none

/-- `json.loads` on the character list of a serialized flat object. -/
def loadsL (cs : List Char) : Option JObj :=
  match skipWs cs with
  | '\x7b' :: rest =>
    match skipWs rest with
    | '\x7d' :: r2 => if skipWs r2 = [] then some [] else none
    | _ =>
      match parsePairsAux (cs.length + 1) rest with
      | some (m, r) => if skipWs r = [] then some m else none
      | none => none
  | _ => none

/-- `json.loads`. -/
def loads (s : String) : Option JObj := loadsL s.data

/-! ### The serialize / parse round trip -/

theorem stringMk_data (s : String) : String.mk s.data = s := rfl

theorem decDig_toNat : ∀ d, d < 10 → (decDig d).toNat = 48 + d := by decide

theorem decDig_isDec : ∀ d, d < 10 → isDec (decDig d) = true := by decide

theorem hexVal_hexDig : ∀ d, d < 16 → hexVal (hexDig d) = some d := by decide

/-- A decimal-digit character is none of the characters the parser treats
specially. -/
theorem isDec_ne {c : Char} (h : isDec c = true) :
    c ≠ '\"' ∧ c ≠ 'n' ∧ c ≠ 't' ∧ c ≠ 'f' ∧ c ≠ '-' ∧ jWs c = false := by
  simp only [isDec, Bool.and_eq_true, decide_eq_true_eq] at h
  refine ⟨?_, ?_, ?_, ?_, ?_, ?_⟩
  · intro he; rw [he] at h; revert h; decide
  · intro he; rw [he] at h; revert h; decide
  · intro he; rw [he] at h; revert h; decide
  · intro he; rw [he] at h; revert h; decide
  · intro he; rw [he] at h; revert h; decide
  · simp only [jWs]
    have h32 : c ≠ ' ' := by intro he; rw [he] at h; revert h; decide
    have h9 : c ≠ '\t' := by intro he; rw [he] at h; revert h; decide
    have h10 : c ≠ '\n' := by intro he; rw [he] at h; revert h; decide
    have h13 : c ≠ '\r' := by intro he; rw [he] at h; revert h; decide
    simp [h32, h9, h10, h13]

theorem skipWs_cons_of_not_ws {c : Char} (h : jWs c = false) (cs : List Char) :
    skipWs (c :: cs) = c :: cs := by
  simp [skipWs, h]

/-- `natDigs` produces decimal digits only. -/
theorem natDigs_all_isDec (n : Nat) : ∀ c ∈ natDigs n, isDec c = true := by
  induction n using Nat.strongRecOn with
  | _ n ih =>
    rw [natDigs_eq]
    by_cases h : n < 10
    · simp only [if_pos h, List.mem_singleton]
      intro c hc; subst hc; exact decDig_isDec _ h
    · simp only [if_neg h]
      intro c hc
      rcases List.mem_append.mp hc with hm | hm
      · exact ih (n / 10) (Nat.div_lt_self (by omega) (by omega)) c hm
      · rw [List.mem_singleton] at hm; subst hm
        exact decDig_isDec _ (Nat.mod_lt _ (by omega))

/-- `natDigs` starts with a digit character. -/
theorem natDigs_cons (n : Nat) : ∃ c t, natDigs n = c :: t ∧ isDec c = true := by
  induction n using Nat.strongRecOn with
  | _ n ih =>
    rw [natDigs_eq]
    by_cases h : n < 10
    · exact ⟨decDig n, [], by simp [h], decDig_isDec _ h⟩
    · obtain ⟨c, t, hct, hc⟩ := ih (n / 10) (Nat.div_lt_self (by omega) (by omega))
      exact ⟨c, t ++ [decDig (n % 10)], by simp [h, hct], hc⟩

/-- First character of the residual input, if any, is not a digit. -/
def headNotDec : List Char → Bool
  | [] => true
  | c :: _ => !isDec c

/-- `grabDigs` splits off exactly a leading digit run. -/
theorem grabDigs_append (ds : List Char) (hds : ∀ c ∈ ds, isDec c = true)
    (rest : List Char) (hrest : headNotDec rest = true) :
    grabDigs (ds ++ rest) = (ds, rest) := by
  induction ds with
  | nil =>
    cases rest with
    | nil => rfl
    | cons c t =>
      simp only [headNotDec, Bool.not_eq_true'] at hrest
      simp [grabDigs, hrest]
  | cons c t ih =>
    have hc : isDec c = true := hds c (by simp)
    have ht : ∀ x ∈ t, isDec x = true := fun x hx => hds x (by simp [hx])
    simp [grabDigs, hc, ih ht]

/-- Folding the digit characters of `natDigs n` from an arbitrary
accumulator. -/
theorem foldl_natDigs (n : Nat) : ∀ acc,
    (natDigs n).foldl (fun a c => a * 10 + (c.toNat - 48)) acc
      = acc * 10 ^ (natDigs n).length + n := by
  induction n using Nat.strongRecOn with
  | _ n ih =>
    intro acc
    rw [natDigs_eq]
    by_cases h : n < 10
    · simp only [if_pos h, List.foldl_cons, List.foldl_nil, List.length_singleton]
      rw [decDig_toNat _ h]
      omega
    · simp only [if_neg h, List.foldl_append, List.foldl_cons, List.foldl_nil,
        List.length_append, List.length_singleton]
      rw [ih (n / 10) (Nat.div_lt_self (by omega) (by omega)) acc]
      rw [decDig_toNat _ (Nat.mod_lt _ (by omega))]
      rw [pow_succ]
      have hmod : 48 + n % 10 - 48 = n % 10 := by omega
      rw [hmod]
      have hsplit : n / 10 * 10 + n % 10 = n := by omega
      calc (acc * 10 ^ (natDigs (n / 10)).length + n / 10) * 10 + n % 10
          = acc * (10 ^ (natDigs (n / 10)).length * 10) + (n / 10 * 10 + n % 10) := by
            ring
        _ = acc * (10 ^ (natDigs (n / 10)).length * 10) + n := by rw [hsplit]

/-- The decimal digit run of `n` evaluates back to `n`. -/
theorem digsVal_natDigs (n : Nat) : digsVal (natDigs n) = n := by
  have := foldl_natDigs n 0
  simpa [digsVal] using this

/-- Parsing one escaped character consumes exactly that character. -/
theorem parseJStrAux_esc (c : Char) (acc rest : List Char) :
    parseJStrAux acc (escChar c ++ rest) = parseJStrAux (c :: acc) rest := by
  by_cases h1 : c = '\"'
  · subst h1; simp [escChar, parseJStrAux, unescChar]
  by_cases h2 : c = '\\'
  · subst h2; simp [escChar, parseJStrAux, unescChar]
  by_cases h3 : c = '\n'
  · subst h3; simp [escChar, h1, parseJStrAux, unescChar]
  by_cases h4 : c = '\t'
  · subst h4; simp [escChar, h1, h2, parseJStrAux, unescChar]
  by_cases h5 : c = '\r'
  · subst h5; simp [escChar, h1, h2, h3, parseJStrAux, unescChar]
  by_cases h6 : c = '\x08'
  · subst h6; simp [escChar, h1, h2, h3, h4, h5, parseJStrAux, unescChar]
  by_cases h7 : c = '\x0c'
  · subst h7; simp [escChar, h1, h2, h3, h4, h5, h6, parseJStrAux, unescChar]
  by_cases h8 : c.toNat < 32
  · have hdiv : c.toNat / 16 < 16 := by omega
    have hmod : c.toNat % 16 < 16 := by omega
    have harith : c.toNat / 16 * 16 + c.toNat % 16 = c.toNat := by omega
    have hv0 : hexVal '0' = some 0 := by decide
    simp only [escChar, if_neg h1, if_neg h2, if_neg h3, if_neg h4, if_neg h5,
      if_neg h6, if_neg h7, if_pos h8, List.cons_append, List.nil_append]
    simp [parseJStrAux, hv0, hexVal_hexDig _ hdiv, hexVal_hexDig _ hmod, harith,
      Char.ofNat_toNat]
  · simp only [escChar, if_neg h1, if_neg h2, if_neg h3, if_neg h4, if_neg h5,
      if_neg h6, if_neg h7, if_neg h8, List.cons_append, List.nil_append]
    rw [parseJStrAux.eq_def]
    simp [h1, h2]

/-- Parsing an escaped run stops exactly at the closing quote. -/
theorem parseJStrAux_escList (l : List Char) : ∀ (acc rest : List Char),
    parseJStrAux acc (escList l ++ '\"' :: rest)
      = some (String.mk (acc.reverse ++ l), rest) := by
  induction l with
  | nil =>
    intro acc rest
    simp [escList, parseJStrAux]
  | cons c cs ih =>
    intro acc rest
    rw [escList, List.append_assoc, parseJStrAux_esc, ih]
    simp

/-- The string round trip: parsing a dumped string literal body recovers
the original string. -/
theorem parseJStr_dump (s : String) (rest : List Char) :
    parseJStrAux [] (escList s.data ++ '\"' :: rest) = some (s, rest) := by
  rw [parseJStrAux_escList]
  simp [stringMk_data]

/-- The value parser on input that starts with none of the keyword, string
or sign characters falls through to the number branch. -/
theorem parsePrim_default (c : Char) (cs : List Char) (hq : c ≠ '\"')
    (hn : c ≠ 'n') (ht : c ≠ 't') (hf : c ≠ 'f') (hm : c ≠ '-') :
    parsePrim (c :: cs)
      = if (grabDigs (c :: cs)).1 = [] then none
        else some (.int ((digsVal (grabDigs (c :: cs)).1 : Nat) : Int),
          (grabDigs (c :: cs)).2) := by
  rw [parsePrim.eq_def]
  split
  · rename_i heq; injection heq with h1 _; exact absurd h1 hn
  · rename_i heq; injection heq with h1 _; exact absurd h1 ht
  · rename_i heq; injection heq with h1 _; exact absurd h1 hf
  · rename_i heq; injection heq with h1 _; exact absurd h1 hq
  · rename_i heq; injection heq with h1 _; exact absurd h1 hm
  · rcases hg : grabDigs (c :: cs) with ⟨ds, r⟩
    simp [hg]

/-- The primitive-value round trip, for any residual input that does not
start with a digit. -/
theorem parsePrim_dump (v : JPrim) (rest : List Char)
    (hrest : headNotDec rest = true) :
    parsePrim (dumpPrimL v ++ rest) = some (v, rest) := by
  cases v with
  | null => simp [dumpPrimL, parsePrim]
  | bool b => cases b <;> simp [dumpPrimL, parsePrim]
  | str s =>
    simp only [dumpPrimL, dumpStrL, List.cons_append, List.append_assoc]
    simp [parsePrim, parseJStr_dump s rest]
  | int n =>
    by_cases hn : n < 0
    · simp only [dumpPrimL, intDecL, if_pos hn, List.cons_append]
      have hgrab := grabDigs_append (natDigs n.natAbs) (natDigs_all_isDec _) rest hrest
      have hne : natDigs n.natAbs ≠ [] := by
        obtain ⟨c, t, hct, _⟩ := natDigs_cons n.natAbs
        simp [hct]
      have habs : -((n.natAbs : Nat) : Int) = n := by omega
      simp [parsePrim, hgrab, hne, digsVal_natDigs, habs]
      rw [abs_of_neg hn]; ring
    · simp only [dumpPrimL, intDecL, if_neg hn]
      obtain ⟨c, t, hct, hc⟩ := natDigs_cons n.natAbs
      obtain ⟨hq, hnn, htt, hff, hmm, _⟩ := isDec_ne hc
      have hgrab := grabDigs_append (natDigs n.natAbs) (natDigs_all_isDec _) rest hrest
      have hne : natDigs n.natAbs ≠ [] := by simp [hct]
      have habs : ((n.natAbs : Nat) : Int) = n := by omega
      rw [hct, List.cons_append, parsePrim_default c (t ++ rest) hq hnn htt hff hmm,
        ← List.cons_append, ← hct, hgrab]
      simp [hne, digsVal_natDigs, habs]

/-- Skipping fuel-preserving leading whitespace in front of the member
parser changes nothing. -/
theorem parsePairsAux_ws (fuel : Nat) (c : Char) (hc : jWs c = true)
    (cs : List Char) : parsePairsAux fuel (c :: cs) = parsePairsAux fuel cs := by
  cases fuel with
  | zero => rfl
  | succ f => rw [parsePairsAux, parsePairsAux, skipWs, if_pos hc]

/-- The head of a dumped primitive value is never whitespace. -/
theorem dumpPrimL_head (v : JPrim) :
    ∃ c t, dumpPrimL v = c :: t ∧ jWs c = false := by
  cases v with
  | null => exact ⟨'n', _, rfl, by decide⟩
  | bool b => cases b with
    | true => exact ⟨'t', _, rfl, by decide⟩
    | false => exact ⟨'f', _, rfl, by decide⟩
  | str s => exact ⟨'\"', _, rfl, by decide⟩
  | int n =>
    by_cases hn : n < 0
    · exact ⟨'-', natDigs n.natAbs, by simp [dumpPrimL, intDecL, hn], by decide⟩
    · obtain ⟨c, t, hct, hc⟩ := natDigs_cons n.natAbs
      exact ⟨c, t, by simp [dumpPrimL, intDecL, hn, hct], (isDec_ne hc).2.2.2.2.2⟩

/-- The object-member round trip: with one unit of fuel per member, the
member parser inverts the member serializer up to the closing brace. -/
theorem parsePairsAux_dump (m : JObj) : ∀ (fuel : Nat), m ≠ [] →
    m.length ≤ fuel → ∀ rest,
    parsePairsAux fuel (dumpPairsL m ++ '\x7d' :: rest) = some (m, rest) := by
  induction m with
  | nil => intro fuel h; exact absurd rfl h
  | cons kv t ih =>
    intro fuel _ hf rest
    obtain ⟨fuel, rfl⟩ : ∃ f, fuel = f + 1 := by
      cases fuel with
      | zero => simp at hf
      | succ f => exact ⟨f, rfl⟩
    obtain ⟨k, v⟩ := kv
    have hshape : dumpPairsL ((k, v) :: t) ++ '\x7d' :: rest
        = '\"' :: (escList k.data
            ++ '\"' :: ':' :: ' ' :: (dumpPrimL v ++ (dumpMoreL t ++ '\x7d' :: rest))) := by
      simp [dumpPairsL, dumpPairL, dumpStrL, List.append_assoc]
    rw [hshape, parsePairsAux, skipWs_cons_of_not_ws (by decide)]
    simp only [parseJStr_dump]
    rw [skipWs_cons_of_not_ws (by decide)]
    simp only []
    obtain ⟨c0, t0, hv0, hws0⟩ := dumpPrimL_head v
    have hskip2 : skipWs (' ' :: (dumpPrimL v ++ (dumpMoreL t ++ '\x7d' :: rest)))
        = dumpPrimL v ++ (dumpMoreL t ++ '\x7d' :: rest) := by
      rw [skipWs, if_pos (by decide), hv0, List.cons_append,
        skipWs_cons_of_not_ws hws0]
    have hdelim : headNotDec (dumpMoreL t ++ '\x7d' :: rest) = true := by
      cases t with
      | nil => rfl
      | cons kv2 t2 => rfl
    rw [hskip2, parsePrim_dump v _ hdelim]
    simp only []
    cases t with
    | nil =>
      simp only [dumpMoreL, List.nil_append]
      rw [skipWs_cons_of_not_ws (by decide)]
      simp only []
    | cons kv2 t2 =>
      simp only [dumpMoreL, List.cons_append]
      rw [skipWs_cons_of_not_ws (by decide)]
      simp only []
      rw [parsePairsAux_ws fuel ' ' (by decide)]
      rw [show dumpPairL kv2 ++ dumpMoreL t2 ++ '\x7d' :: rest
          = dumpPairsL (kv2 :: t2) ++ '\x7d' :: rest from by
        simp [dumpPairsL, List.append_assoc]]
      rw [ih fuel (by simp) (by simpa using hf) rest]

/-- Each serialized member takes at least one character. -/
theorem dumpMoreL_length (t : JObj) : t.length ≤ (dumpMoreL t).length := by
  induction t with
  | nil => simp [dumpMoreL]
  | cons kv t ih => simp [dumpMoreL]; omega

theorem dumpPairsL_length (m : JObj) : m.length ≤ (dumpPairsL m).length := by
  cases m with
  | nil => simp [dumpPairsL]
  | cons kv t =>
    have h1 : 1 ≤ (dumpPairL kv).length := by
      simp [dumpPairL, dumpStrL]
    have h2 := dumpMoreL_length t
    simp [dumpPairsL]
    omega

/-- The round trip of the log-payload codec: `json.loads` recovers exactly
the dict that `json.dumps` serialized. -/
theorem loads_dumps (m : JObj) : loads (dumps m) = some m := by
  rw [loads, dumps, stringMk_data]
  show loadsL ('\x7b' :: (dumpPairsL m ++ ['\x7d'])) = some m
  rw [loadsL, skipWs_cons_of_not_ws (by decide)]
  cases m with
  | nil =>
    simp only [dumpPairsL, List.nil_append]
    rw [skipWs_cons_of_not_ws (by decide)]
    simp [skipWs]
  | cons kv t =>
    obtain ⟨k, v⟩ := kv
    simp only []
    have hhead : dumpPairsL ((k, v) :: t) ++ ['\x7d']
        = '\"' :: (escList k.data
            ++ '\"' :: ':' :: ' ' :: (dumpPrimL v ++ (dumpMoreL t ++ ['\x7d']))) := by
      simp [dumpPairsL, dumpPairL, dumpStrL, List.append_assoc]
    rw [show skipWs (dumpPairsL ((k, v) :: t) ++ ['\x7d'])
        = '\"' :: (escList k.data
            ++ '\"' :: ':' :: ' ' :: (dumpPrimL v ++ (dumpMoreL t ++ ['\x7d']))) from by
      rw [hhead]; exact skipWs_cons_of_not_ws (by decide) _]
    split
    · rename_i r2 heq
      injection heq with h1 _
      exact absurd h1 (by decide)
    have hfuel : ((k, v) :: t).length
        ≤ ('\x7b' :: (dumpPairsL ((k, v) :: t) ++ ['\x7d'])).length + 1 := by
      have := dumpPairsL_length ((k, v) :: t)
      simp only [List.length_cons, List.length_append, List.length_singleton] at *
      omega
    rw [show dumpPairsL ((k, v) :: t) ++ ['\x7d']
        = dumpPairsL ((k, v) :: t) ++ '\x7d' :: [] from rfl]
    rw [parsePairsAux_dump ((k, v) :: t) _ (by simp) hfuel []]
    simp [skipWs]

/-! ## SHA-256 and generate_hash

`utils.generate_hash` hashes the UTF-8 encoding of its input with SHA-256
and keeps the first `length` characters of the lower-case hex digest.  The
hash is implemented here in full over `Nat`, with 32-bit wrap-around made
explicit by reduction modulo `2 ^ 32`.
-/

/-- Truncate to a 32-bit word. -/
def w32 (x : Nat) : Nat := x % 4294967296

/-- Right rotation of a 32-bit word. -/
def rotr (x n : Nat) : Nat := w32 ((x >>> n) ||| (x <<< (32 - n)))

/-- UTF-8 encoding of one character (str.encode). -/
def utf8Char (c : Char) : List Nat :=
  let n := c.toNat
  if n < 128 then [n]
  else if n < 2048 then [192 + n / 64, 128 + n % 64]
  else if n < 65536 then [224 + n / 4096, 128 + (n / 64) % 64, 128 + n % 64]
  else [240 + n / 262144, 128 + (n / 4096) % 64, 128 + (n / 64) % 64, 128 + n % 64]

/-- UTF-8 encoding of a string, as a byte list. -/
def utf8 (s : String) : List Nat :=
  s.data.foldr (fun c acc => utf8Char c ++ acc) []

/-- SHA-256 working state: eight 32-bit words. -/
structure Hash8 where
  a : Nat
  b : Nat
  c : Nat
  d : Nat
  e : Nat
  f : Nat
  g : Nat
  h : Nat

/-- SHA-256 padding: `0x80`, zeros to 56 mod 64, 64-bit big-endian bit
length. -/
def shaPad (msg : List Nat) : List Nat :=
  let L := msg.length
  let z := (120 - ((L + 1) % 64)) % 64
  let bits := L * 8
  msg ++ [128] ++ List.replicate z 0 ++
    [bits >>> 56 % 256, bits >>> 48 % 256, bits >>> 40 % 256, bits >>> 32 % 256,
     bits >>> 24 % 256, bits >>> 16 % 256, bits >>> 8 % 256, bits % 256]

/-- Split a byte list into 64-byte blocks (fuel-bounded). -/
def chunksAux : Nat → List Nat → List (List Nat)
  | 0, _ => []
  | _, [] => []
  | fuel + 1, l => l.take 64 :: chunksAux fuel (l.drop 64)

def chunk64 (l : List Nat) : List (List Nat) := chunksAux l.length l

/-- Big-endian 4-byte groups to 32-bit words. -/
def toWords : List Nat → List Nat
  | b0 :: b1 :: b2 :: b3 :: rest =>
      (((b0 * 256 + b1) * 256 + b2) * 256 + b3) :: toWords rest
  | _ => []

def smallSigma0 (x : Nat) : Nat := (rotr x 7) ^^^ (rotr x 18) ^^^ (x >>> 3)

def smallSigma1 (x : Nat) : Nat := (rotr x 17) ^^^ (rotr x 19) ^^^ (x >>> 10)

def bigSigma0 (x : Nat) : Nat := (rotr x 2) ^^^ (rotr x 13) ^^^ (rotr x 22)

def bigSigma1 (x : Nat) : Nat := (rotr x 6) ^^^ (rotr x 11) ^^^ (rotr x 25)

def chf (x y z : Nat) : Nat := (x &&& y) ^^^ ((x ^^^ 4294967295) &&& z)

def maj (x y z : Nat) : Nat := (x &&& y) ^^^ (x &&& z) ^^^ (y &&& z)

/-- Extend the 16 message words by `k` further schedule words. -/
def extendSched (ws : List Nat) : Nat → List Nat
  | 0 => ws
  | k + 1 =>
    let w := extendSched ws k
    w ++ [w32 (smallSigma1 (w.getD (w.length - 2) 0) + w.getD (w.length - 7) 0
      + smallSigma0 (w.getD (w.length - 15) 0) + w.getD (w.length - 16) 0)]

/-- The 64-entry message schedule of one block. -/
def sched (block : List Nat) : List Nat := extendSched (toWords block) 48

/-- The SHA-256 round constants. -/
def shaK : List Nat :=
  [1116352408, 1899447441, 3049323471, 3921009573, 961987163, 1508970993,
   2453635748, 2870763221, 3624381080, 310598401, 607225278, 1426881987,
   1925078388, 2162078206, 2614888103, 3248222580, 3835390401, 4022224774,
   264347078, 604807628, 770255983, 1249150122, 1555081692, 1996064986,
   2554220882, 2821834349, 2952996808, 3210313671, 3336571891, 3584528711,
   113926993, 338241895, 666307205, 773529912, 1294757372, 1396182291,
   1695183700, 1986661051, 2177026350, 2456956037, 2730485921, 2820302411,
   3259730800, 3345764771, 3516065817, 3600352804, 4094571909, 275423344,
   430227734, 506948616, 659060556, 883997877, 958139571, 1322822218,
   1537002063, 1747873779, 1955562222, 2024104815, 2227730452, 2361852424,
   2428436474, 2756734187, 3204031479, 3329325298]

/-- One compression round. -/
def compressStep (st : Hash8) (kw : Nat × Nat) : Hash8 :=
  let t1 := w32 (st.h + bigSigma1 st.e + chf st.e st.f st.g + kw.1 + kw.2)
  let t2 := w32 (bigSigma0 st.a + maj st.a st.b st.c)
  ⟨w32 (t1 + t2), st.a, st.b, st.c, w32 (st.d + t1), st.e, st.f, st.g⟩

/-- Compress one 64-byte block into the running state. -/
def compressBlock (st : Hash8) (block : List Nat) : Hash8 :=
  let fin := (shaK.zip (sched block)).foldl compressStep st
  ⟨w32 (st.a + fin.a), w32 (st.b + fin.b), w32 (st.c + fin.c), w32 (st.d + fin.d),
   w32 (st.e + fin.e), w32 (st.f + fin.f), w32 (st.g + fin.g), w32 (st.h + fin.h)⟩

/-- The SHA-256 initial state. -/
def sha256H0 : Hash8 :=
  ⟨0x6a09e667, 0xbb67ae85, 0x3c6ef372, 0xa54ff53a,
   0x510e527f, 0x9b05688c, 0x1f83d9ab, 0x5be0cd19⟩

/-- Big-endian bytes of one 32-bit word. -/
def wordBytes (v : Nat) : List Nat :=
  [v >>> 24 % 256, v >>> 16 % 256, v >>> 8 % 256, v % 256]

/-- The 32-byte SHA-256 digest of a byte list. -/
def sha256Bytes (msg : List Nat) : List Nat :=
  let st := (chunk64 (shaPad msg)).foldl compressBlock sha256H0
  wordBytes st.a ++ wordBytes st.b ++ wordBytes st.c ++ wordBytes st.d ++
    wordBytes st.e ++ wordBytes st.f ++ wordBytes st.g ++ wordBytes st.h

/-- Two lower-case hex characters of one byte. -/
def hexByte (b : Nat) : List Char := [hexDig (b / 16 % 16), hexDig (b % 16)]

/-- Lower-case hex digest string of a byte list. -/
def hexdigest (bytes : List Nat) : String :=
  String.mk (bytes.foldr (fun b acc => hexByte b ++ acc) [])

/-- `hashlib.sha256(s.encode()).hexdigest()`. -/
def sha256Hexdigest (s : String) : String := hexdigest (sha256Bytes (utf8 s))

/-- `utils.generate_hash`: truncated SHA-256 hex digest.  The Python slice
`[:length]` keeps the first `length` characters, modelled on the character
list. -/
def generate_hash (data_string : String) (length : Nat := 8) : String :=
  String.mk ((sha256Hexdigest data_string).data.take length)

/-! ## Errors and filesystem state

Python exceptions become values of `Err`; functions that can raise return
`Except Err`.  The filesystem is a set of directory paths plus a map from
file paths to contents; a content of `none` models a file that exists but
cannot be read (an OS-level fault such as missing permissions), which is
how a context-aggregation step can fail after the user directories were
created. -/

/-- The exception kinds the modelled code raises. -/
inductive Err where
  | valueError (msg : String)
  | fileNotFound (msg : String)
  | ioError (msg : String)
deriving DecidableEq

deriving instance DecidableEq for Except

/-- Python `str(e)` on the exceptions above: the message. -/
def errStr : Err → String
  | .valueError m => m
  | .fileNotFound m => m
  | .ioError m => m

/-- Explicit filesystem state. -/
structure FS where
  dirs : List String
  files : List (String × Option String)
deriving DecidableEq

/-- `os.path.join` for the relative two-segment joins the code performs. -/
def pathJoin (a b : String) : String := a ++ "/" ++ b

/-- `os.path.isfile`. -/
def isFile (fs : FS) (p : String) : Bool := fs.files.any (fun e => e.1 == p)

/-- `os.path.exists`. -/
def pathExists (fs : FS) (p : String) : Bool := fs.dirs.contains p || isFile fs p

/-- Strip an exact character-list prefix. -/
def dropPref : List Char → List Char → Option (List Char)
  | [], rest => some rest
  | _ :: _, [] => none
  | p :: ps, c :: cs => if p = c then dropPref ps cs else none

/-- The entry name of `p` inside directory `dir`, when `p` lies directly
inside `dir`. -/
def childName (dir p : String) : Option String :=
  match dropPref (dir ++ "/").data p.data with
  | some rest =>
    if rest = [] then none
    else if rest.contains '/' then none
    else some (String.mk rest)
  | none => none

/-- `os.listdir`: the file and subdirectory names directly inside `dir`
(in storage order; the caller sorts). -/
def listdir (fs : FS) (dir : String) : List String :=
  fs.files.filterMap (fun e => childName dir e.1)
    ++ fs.dirs.filterMap (fun d => childName dir d)

/-- First stored entry for a path. -/
def lookupFile (fs : FS) (p : String) : Option (Option String) :=
  (fs.files.find? (fun e => e.1 == p)).map Prod.snd

/-- `utils.read_file`: re-raises FileNotFoundError with a decorated
message; a present-but-unreadable file surfaces as an IOError-like fault. -/
def read_file (fs : FS) (path : String) : Except Err String :=
  match lookupFile fs path with
  | some (some c) => .ok c
  | some none => .error (.ioError ("Permission denied: " ++ path))
  | none => .error (.fileNotFound ("File not found: " ++ path))

/-- `os.path.dirname`: the path up to (and excluding) its last slash. -/
def dirname (p : String) : String :=
  String.mk (((p.data.reverse.dropWhile (fun c => !(c == '/'))).drop 1).reverse)

/-- `utils.write_file`: any failure of `open(path, 'w')` is re-raised as
an IOError with a decorated message.  The open succeeds when the parent
directory exists and no directory sits at the target path itself; the
deterministic failure modes the filesystem state can express are a
directory at the target (`[Errno 21]`) and a missing parent directory
(`[Errno 2]`). -/
def write_file (fs : FS) (path content : String) : Except Err FS :=
  if fs.dirs.contains path then
    .error (.ioError ("Error writing to file " ++ path
      ++ ": [Errno 21] Is a directory: " ++ path))
  else if fs.dirs.contains (dirname path) then
    .ok ⟨fs.dirs, (path, some content) :: fs.files.filter (fun e => !(e.1 == path))⟩
  else
    .error (.ioError ("Error writing to file " ++ path
      ++ ": [Errno 2] No such file or directory: " ++ path))

/-- `utils.ensure_dir_exists` (`os.makedirs` with `exist_ok`). -/
def ensure_dir_exists (fs : FS) (path : String) : FS :=
  if fs.dirs.contains path then fs else ⟨path :: fs.dirs, fs.files⟩

/-! ## user_manager -/

/-- One reading of the wall clock inside `create_user` or a filename
generator: `str(time.time())` together with its integer part
(`int(float(timestamp))`). -/
structure Moment where
  asStr : String
  whole : Nat
deriving DecidableEq

/-- `os.path.join('data', 'users', user_id)`. -/
def userBase (user_id : String) : String := pathJoin "data/users" user_id

def userSubdirNames : List String :=
  ["context", "prompts", "seeds", "feedback", "interaction_dumps"]

/-- `user_manager.create_user`: hash of identifier plus clock reading,
then the directory tree. -/
def create_user (fs : FS) (user_identifier : String) (now : Moment) :
    FS × String :=
  let user_id := generate_hash (user_identifier ++ now.asStr) 16
  let base := userBase user_id
  let fs1 := ensure_dir_exists fs base
  let fs2 := userSubdirNames.foldl
    (fun acc sub => ensure_dir_exists acc (pathJoin base sub)) fs1
  (fs2, user_id)

/-- The dict `user_manager.get_user_paths` builds (keys in source order). -/
def user_paths_list (user_id : String) : List (String × String) :=
  let base := userBase user_id
  [("base", base),
   ("context", pathJoin base "context"),
   ("prompts", pathJoin base "prompts"),
   ("seeds", pathJoin base "seeds"),
   ("feedback", pathJoin base "feedback"),
   ("interaction_dumps", pathJoin base "interaction_dumps")]

/-- `user_manager.get_user_paths`. -/
def get_user_paths (fs : FS) (user_id : String) :
    Except Err (List (String × String)) :=
  if pathExists fs (userBase user_id) then .ok (user_paths_list user_id)
  else .error (.valueError ("User directory not found for user_id: " ++ user_id))

/-! ## context_processor -/

/-- Code-point lexicographic comparison of character lists (the order
Python string comparison uses). -/
def listLtChars : List Char → List Char → Bool
  | [], [] => false
  | [], _ :: _ => true
  | _ :: _, [] => false
  | a :: as, b :: bs => if a < b then true else if b < a then false else listLtChars as bs

/-- Boolean `a <= b` on strings via code points. -/
def strLeB (a b : String) : Bool := !(listLtChars b.data a.data)

/-- Insertion into a sorted list by string order. -/
def insertSorted (x : String) : List String → List String
  | [] => [x]
  | y :: ys => if strLeB x y then x :: y :: ys else y :: insertSorted x ys

/-- Python `list.sort()` on filename strings: produces the ascending
reordering (code-point lexicographic, the same order as Lean `String` lt). -/
def sortStrings : List String → List String
  | [] => []
  | x :: xs => insertSorted x (sortStrings xs)

def ctxHeader (filename : String) : String :=
  "### Context from " ++ filename ++ " ###"

/-- The dashed separator: one dash per header character. -/
def ctxSep (filename : String) : String :=
  String.mk (List.replicate (ctxHeader filename).length '-')

/-- Python `sep.join(list)`. -/
def joinSep (sep : String) : List String → String
  | [] => ""
  | [x] => x
  | x :: y :: xs => x ++ sep ++ joinSep sep (y :: xs)

/-- One rendered context block: header, separator, file content. -/
def ctxBlock (filename content : String) : String :=
  ctxHeader filename ++ "\n" ++ ctxSep filename ++ "\n" ++ content

/-- Python `str.endswith`: a character-level suffix test. -/
def pyEndsWith (s suffix : String) : Bool :=
  suffix.data.isSuffixOf s.data

/-- `context_processor.get_user_context_string`. -/
def get_user_context_string (fs : FS) (user_id : String) : Except Err String := do
  let _ ← get_user_paths fs user_id
  let context_dir := pathJoin (userBase user_id) "context"
  if !(pathExists fs context_dir) then
    .error (.valueError ("Context directory not found for user_id: " ++ user_id))
  else
    let context_files := (listdir fs context_dir).filter
      (fun f => (pyEndsWith f ".txt" || pyEndsWith f ".md")
        && isFile fs (pathJoin context_dir f))
    if context_files = [] then .ok ""
    else do
      let blocks ← (sortStrings context_files).mapM (fun filename => do
        let content ← read_file fs (pathJoin context_dir filename)
        pure (ctxBlock filename content))
      .ok (joinSep "\n\n" blocks)

/-! ## prompt_manager -/

/-- `prompt_manager.load_base_prompt`. -/
def load_base_prompt (fs : FS) (prompt_template_name : String) :
    Except Err String :=
  read_file fs (pathJoin "base_prompts" prompt_template_name)

/-- `prompt_manager.save_user_prompt`: validates the subfolder against the
keys of the user-paths dict, then writes into that directory. -/
def save_user_prompt (fs : FS) (user_id prompt_filename prompt_content : String)
    (subfolder : String) : Except Err (FS × String) := do
  let user_paths ← get_user_paths fs user_id
  match user_paths.lookup subfolder with
  | none => .error (.valueError ("Invalid subfolder: " ++ subfolder
      ++ ". Valid options are: base, context, prompts, seeds, feedback, interaction_dumps"))
  | some dir =>
    let prompt_path := pathJoin dir prompt_filename
    (write_file fs prompt_path prompt_content).map (fun fs2 => (fs2, prompt_path))

/-! ## db_manager: the operations log

One SQLite row of `operations_log`.  `id` is the AUTOINCREMENT primary
key, assigned in insertion order by the store; the JSON payload columns
hold the serialized text. -/

structure LogRecord where
  id : Nat
  timestamp : String
  user_id : String
  pipeline_name : Option String
  operation_type : String
  input_params_json : Option String
  output_ref_json : Option String
  status : String
  notes : Option String
deriving DecidableEq

/-- The log store: the next identity value and the inserted rows in
insertion order. -/
structure DB where
  nextId : Nat
  records : List LogRecord
deriving DecidableEq

/-- `db_manager.setup_database`: `CREATE TABLE IF NOT EXISTS` — a fresh
path gets an empty store, an existing store is left untouched. -/
def setup_database : Option DB → DB
  | none => ⟨1, []⟩
  | some db => db

/-- `json.dumps(x) if x else None`: Python truthiness stores NULL both for
`None` and for the empty dict. -/
def jsonField : Option JObj → Option String
  | none => none
  | some m => if m = [] then none else some (dumps m)

/-- The row one `log_operation` call inserts (parameter order follows the
Python signature; the timestamp string is the clock reading the call
formats). -/
def mkRecord (id : Nat) (user_id operation_type : String)
    (pipeline_name : Option String) (input_params output_ref : Option JObj)
    (status : String) (notes : Option String) (timestamp : String) : LogRecord :=
  ⟨id, timestamp, user_id, pipeline_name, operation_type,
    jsonField input_params, jsonField output_ref, status, notes⟩

/-- `db_manager.log_operation`: one INSERT; the store assigns the identity
and the row carries the formatted clock reading. -/
def log_operation (db : DB) (user_id operation_type : String)
    (pipeline_name : Option String) (input_params output_ref : Option JObj)
    (status : String) (notes : Option String) (timestamp : String) : DB :=
  ⟨db.nextId + 1,
   db.records ++ [mkRecord db.nextId user_id operation_type pipeline_name
     input_params output_ref status notes timestamp]⟩

/-- A query-result record after `get_operations_for_user` parsed the JSON
columns back into dicts and deleted the raw columns. -/
structure OpRecord where
  id : Nat
  timestamp : String
  user_id : String
  pipeline_name : Option String
  operation_type : String
  input_params : Option JObj
  output_ref : Option JObj
  status : String
  notes : Option String
deriving DecidableEq

/-- One JSON column on read: `if row[col]:` is false for NULL and for the
empty string, otherwise `json.loads` runs (whose decode error is a
ValueError subclass). -/
def parseJsonColumn : Option String → Except Err (Option JObj)
  | none => .ok none
  | some s =>
    if s = "" then .ok none
    else
      match loads s with
      | some m => .ok (some m)
      | none => .error (.valueError ("Expecting value: " ++ s))

/-- The per-row conversion `get_operations_for_user` performs. -/
def parseRow (r : LogRecord) : Except Err OpRecord := do
  let ip ← parseJsonColumn r.input_params_json
  let orf ← parseJsonColumn r.output_ref_json
  .ok ⟨r.id, r.timestamp, r.user_id, r.pipeline_name, r.operation_type,
    ip, orf, r.status, r.notes⟩

/-- `ORDER BY timestamp DESC` sortedness: each row's timestamp is no
smaller than any later row's.  SQLite compares the TEXT column by its
UTF-8 bytes, which is exactly code-point lexicographic order
(`listLtChars`). -/
def tsDescSorted (rows : List LogRecord) : Prop :=
  rows.Pairwise (fun a b => listLtChars a.timestamp.data b.timestamp.data = false)

/-- The row lists `SELECT * FROM operations_log WHERE user_id = ? ORDER BY
timestamp DESC` may return: all of the user's rows, in some order that is
non-increasing on `timestamp`.  SQLite documents no tie-break for rows
with equal ORDER BY keys, so the query is modelled as this relation rather
than a function. -/
def rows_admissible (db : DB) (user_id : String) (rows : List LogRecord) : Prop :=
  List.Perm rows (db.records.filter (fun r => r.user_id == user_id))
    ∧ tsDescSorted rows

/-- The results `db_manager.get_operations_for_user` may return: an
admissible row order, each row parsed. -/
def query_admissible (db : DB) (user_id : String) (res : List OpRecord) : Prop :=
  ∃ rows, rows_admissible db user_id rows ∧ rows.mapM parseRow = .ok res

/-! ## XML fragment model (xml.etree.ElementTree as used here)

Elements carry a tag, their direct text and their child elements.
Attributes, comments, processing instructions, entity references and tail
text are outside the fragment; none are exercised by the modelled code
paths, which only check the root tag, look up and append children, and
serialize. -/

inductive Xml where
  | elem (tag : String) (text : String) (children : List Xml)

def Xml.tag : Xml → String
  | .elem t _ _ => t

def Xml.text : Xml → String
  | .elem _ t _ => t

def Xml.children : Xml → List Xml
  | .elem _ _ c => c

/-- Characters allowed in the model's element names. -/
def nameChar (c : Char) : Bool :=
  c.isAlphanum || c = '_' || c = '-' || c = '.'

/-- Split a leading run of name characters. -/
def grabName : List Char → List Char × List Char
  | [] => ([], [])
  | c :: cs =>
    if nameChar c then
      let (nm, r) := grabName cs
      (c :: nm, r)
    else ([], c :: cs)

mutual

/-- Parse one element `<tag>content</tag>` (fuel-bounded). -/
def parseXmlElem : Nat → List Char → Option (Xml × List Char)
  | 0, _ => none
  | fuel + 1, cs =>
    match cs with
    | '<' :: rest =>
      match grabName rest with
      | (nm, r1) =>
        if nm = [] then none
        else
          match r1 with
          | '>' :: r2 => parseXmlContent fuel (String.mk nm) "" [] r2
          | _ => none
    | _ => none

/-- Parse element content up to the matching close tag, gathering direct
text into `txt` and children in reverse into `kids`. -/
def parseXmlContent : Nat → String → String → List Xml → List Char →
    Option (Xml × List Char)
  | 0, _, _, _, _ => none
  | fuel + 1, tag, txt, kids, cs =>
    match cs with
    | '<' :: '/' :: rest =>
      match grabName rest with
      | (nm, r1) =>
        if String.mk nm = tag then
          match r1 with
          | '>' :: r2 => some (.elem tag txt kids.reverse, r2)
          | _ => none
        else none
    | '<' :: rest => 
      match parseXmlElem fuel ('<' :: rest) with
      | some (child, r1) => parseXmlContent fuel tag txt (child :: kids) r1
      | none => none
    | c :: rest => parseXmlContent fuel tag (txt.push c) kids rest
    | [] => none

end

/-- `ET.fromstring` on the fragment: one root element, with surrounding
whitespace tolerated. -/
def fromstring (s : String) : Option Xml :=
  match parseXmlElem (2 * s.length + 2) (skipWs s.data) with
  | some (t, rest) => if rest.all jWs then some t else none
  | none => none

mutual

/-- `ET.tostring(..., encoding='unicode')` on the fragment. -/
def xmlToString : Xml → String
  | .elem tag txt kids =>
    "<" ++ tag ++ ">" ++ txt ++ xmlListToString kids ++ "</" ++ tag ++ ">"

def xmlListToString : List Xml → String
  | [] => ""
  | c :: cs => xmlToString c ++ xmlListToString cs

end

/-! ## llm_orchestrator -/

/-- Python `str.replace`: substitute every non-overlapping occurrence of
the pattern, scanning left to right (fuel-bounded; one unit per consumed
character suffices). -/
def replaceAllAux : Nat → List Char → List Char → List Char → List Char
  | 0, s, _, _ => s
  | fuel + 1, s, pat, rep =>
    match s with
    | [] => []
    | c :: rest =>
      match dropPref pat s with
      | some remainder => rep ++ replaceAllAux fuel remainder pat rep
      | none => c :: replaceAllAux fuel rest pat rep

def pyReplace (s pat rep : String) : String :=
  String.mk (replaceAllAux (s.data.length + 1) s.data pat.data rep.data)

/-- `llm_orchestrator.prepare_designer_llm_input`: template with the
context placeholder substituted. -/
def prepare_designer_llm_input (fs : FS) (context_string : String) :
    Except Err String := do
  let designer_template ← load_base_prompt fs "synai_designer.xml"
  .ok (pyReplace designer_template "\x7bCONTEXT\x7d" context_string)

/-- `llm_orchestrator.validate_designer_output_xml`: parses and requires
the root tag `synai`. -/
def validate_designer_output_xml (xml_string : String) : Bool :=
  match fromstring xml_string with
  | some root => root.tag == "synai"
  | none => false

def mkTextElem (tag txt : String) : Xml := .elem tag txt []

/-- The three `SubElement` children `process_designer_llm_output` adds. -/
def metaChildren (metaTs user_id : String) : List Xml :=
  [mkTextElem "generated_at" metaTs,
   mkTextElem "generated_by" "synai_designer",
   mkTextElem "user_id" user_id]

/-- Rewrite the first child satisfying `p` (ElementTree mutates the
element `find` located). -/
def replaceFirst (p : Xml → Bool) (f : Xml → Xml) : List Xml → List Xml
  | [] => []
  | x :: xs => if p x then f x :: xs else x :: replaceFirst p f xs

/-- `root.find(tag)`: the first direct child with the tag. -/
def findChild (t : Xml) (tag : String) : Option Xml :=
  t.children.find? (fun c => c.tag == tag)

/-- The metadata step of `process_designer_llm_output`: the existing
(first) metadata child gains the three generated elements, or a fresh
metadata element is appended at the end. -/
def addSeedMetadata (t : Xml) (metaTs user_id : String) : Xml :=
  match findChild t "metadata" with
  | some _ =>
    .elem t.tag t.text (replaceFirst (fun c => c.tag == "metadata")
      (fun m => .elem m.tag m.text (m.children ++ metaChildren metaTs user_id))
      t.children)
  | none =>
    .elem t.tag t.text (t.children ++ [.elem "metadata" "" (metaChildren metaTs user_id)])

/-- `llm_orchestrator.process_designer_llm_output`: validate, stamp the
metadata block, serialize, and save under `seeds` with a generated
filename. -/
def process_designer_llm_output (fs : FS)
    (designer_llm_response_xml_str user_id : String)
    (seedTime : Moment) (metaTs : String) : Except Err (FS × String) :=
  if !(validate_designer_output_xml designer_llm_response_xml_str) then
    .error (.valueError ("Invalid XML response from Designer LLM. "
      ++ "Response must be well-formed XML with root element 'synai'"))
  else
    match fromstring designer_llm_response_xml_str with
    | none => .error (.valueError "Failed to parse Designer LLM response")
    | some root =>
      let outStr := xmlToString (addSeedMetadata root metaTs user_id)
      let short_hash := generate_hash (user_id ++ seedTime.asStr) 8
      let seed_filename := "seed_prompt_" ++ short_hash ++ "_"
        ++ String.mk (natDigs seedTime.whole) ++ ".xml"
      save_user_prompt fs user_id seed_filename outStr "seeds"

/-! ## pipelines -/

/-- The combined mutable state a pipeline touches: the user directories
and the one operations-log store behind `db_path`. -/
structure World where
  fs : FS
  db : DB
deriving DecidableEq

/-- `pipelines.pipeline_process_seed_from_designer_output`.  `seedTime`,
`metaTs` and `logTs` are the clock readings consumed by the filename
generator, the metadata stamp and the log row. -/
def pipeline_process_seed_from_designer_output (w : World)
    (user_id designer_llm_response_xml_str : String)
    (seedTime : Moment) (metaTs logTs : String) : World × Except Err String :=
  match process_designer_llm_output w.fs designer_llm_response_xml_str
      user_id seedTime metaTs with
  | .ok (fs2, seed_path) =>
    let db2 := log_operation w.db user_id "SEED_PROMPT_GENERATED"
      (some "process_seed_from_designer_output")
      (some [("designer_response_length", .int designer_llm_response_xml_str.length)])
      (some [("seed_path", .str seed_path)]) "SUCCESS" none logTs
    (⟨fs2, db2⟩, .ok seed_path)
  | .error e =>
    let db2 := log_operation w.db user_id "SEED_GENERATION_FAILED"
      (some "process_seed_from_designer_output")
      (some [("designer_response_length", .int designer_llm_response_xml_str.length)])
      none "FAILED" (some ("Error: " ++ errStr e)) logTs
    (⟨w.fs, db2⟩, .error e)

/-- `pipelines.pipeline_onboard_user_with_context_to_seed`: create the
user, log it, aggregate context inside try/except (logging FAILED and
re-raising on any exception), then prepare the designer input and log the
PENDING_LLM row. -/
def pipeline_onboard_user_with_context_to_seed (w : World)
    (user_identifier : String) (createTime : Moment)
    (logTs1 logTs2 logTs3 : String) : World × Except Err String :=
  let created := create_user w.fs user_identifier createTime
  let fs1 := created.1
  let user_id := created.2
  let db1 := log_operation w.db user_id "USER_CREATED"
    (some "onboard_user_with_context_to_seed")
    (some [("user_identifier", .str user_identifier)])
    (some [("user_id", .str user_id)]) "SUCCESS" none logTs1
  match get_user_context_string fs1 user_id with
  | .error e =>
    let db2 := log_operation db1 user_id "CONTEXT_AGGREGATION_FAILED"
      (some "onboard_user_with_context_to_seed")
      none none "FAILED" (some (errStr e)) logTs2
    (⟨fs1, db2⟩, .error e)
  | .ok context_string =>
    let db2 := log_operation db1 user_id "CONTEXT_AGGREGATED"
      (some "onboard_user_with_context_to_seed")
      none (some [("context_length", .int context_string.length)])
      "SUCCESS" none logTs2
    match prepare_designer_llm_input fs1 context_string with
    | .error e => (⟨fs1, db2⟩, .error e)
    | .ok designer_input =>
      let db3 := log_operation db2 user_id "DESIGNER_INPUT_PREPARED"
        (some "onboard_user_with_context_to_seed")
        none
        (some [("designer_input_length", .int designer_input.length),
               ("context_included", .bool (decide (0 < context_string.length)))])
        "PENDING_LLM" (some "Ready for external LLM processing") logTs3
      (⟨fs1, db3⟩, .ok user_id)

/-! ## Shared facts about paths and directory listings -/

theorem dropPref_append_left : ∀ (a b c : List Char),
    dropPref (a ++ b) (a ++ c) = dropPref b c := by
  intro a
  induction a with
  | nil => intro b c; rfl
  | cons p ps ih => intro b c; simp [dropPref, ih]

theorem dropPref_refl_append (a r : List Char) : dropPref a (a ++ r) = some r := by
  have h := dropPref_append_left a [] r
  simpa using h

/-- A direct child path of `d` lists under its own name. -/
theorem childName_pathJoin (d n : String) (hne : n.data ≠ [])
    (hsl : n.data.contains '/' = false) :
    childName d (pathJoin d n) = some n := by
  unfold childName pathJoin
  rw [show ((d ++ "/") ++ n).data = (d ++ "/").data ++ n.data from String.data_append ..]
  rw [dropPref_refl_append]
  have hns : '/' ∉ n.data := by
    intro hm
    have he := List.elem_iff.mpr hm
    simp only [List.contains] at hsl
    rw [he] at hsl
    simp at hsl
  simp [hne, hsl, stringMk_data, hns]

/-- `pathJoin` is injective in the trailing segment. -/
theorem pathJoin_inj_right {d a b : String} : pathJoin d a = pathJoin d b ↔ a = b := by
  constructor
  · intro h
    have hd := congrArg String.data h
    simp only [pathJoin] at hd
    rw [String.data_append, String.data_append, String.data_append,
      String.data_append] at hd
    exact String.ext (List.append_cancel_left hd)
  · intro h; rw [h]

theorem pathJoin_beq_false {d a b : String} (h : a ≠ b) :
    (pathJoin d a == pathJoin d b) = false := by
  rw [beq_eq_false_iff_ne]
  intro hc
  exact h (pathJoin_inj_right.mp hc)

theorem string_length_append (a b : String) :
    (a ++ b).length = a.length + b.length := by
  rw [String.length, String.length, String.length, String.data_append,
    List.length_append]

/-- A child path is strictly longer than the directory, hence distinct
from any path of at most the directory's length. -/
theorem pathJoin_ne_short {d n q : String} (h : q.length ≤ d.length) :
    pathJoin d n ≠ q := by
  intro he
  have := congrArg String.length he
  simp only [pathJoin] at this
  rw [string_length_append, string_length_append] at this
  have h1 : ("/" : String).length = 1 := rfl
  omega

/-! ## Shared facts about write_file and the generated seed filename -/

theorem dropWhile_append_all {α : Type} (p : α → Bool) (xs ys : List α)
    (h : ∀ x ∈ xs, p x = true) :
    List.dropWhile p (xs ++ ys) = List.dropWhile p ys := by
  induction xs with
  | nil => rfl
  | cons a as ih =>
    rw [List.cons_append, List.dropWhile_cons, if_pos (h a (by simp))]
    exact ih (fun x hx => h x (by simp [hx]))

/-- The parent directory of a slash-free entry name joined onto `d`. -/
theorem dirname_pathJoin (d n : String) (h : '/' ∉ n.data) :
    dirname (pathJoin d n) = d := by
  rw [dirname, pathJoin]
  rw [show (d ++ "/" ++ n).data = (d.data ++ ['/']) ++ n.data from by
    rw [String.data_append, String.data_append]]
  rw [List.reverse_append, List.reverse_append]
  rw [show (['/'] : List Char).reverse ++ d.data.reverse
      = '/' :: d.data.reverse from rfl]
  rw [dropWhile_append_all _ _ _ (fun x hx => by
    rw [List.mem_reverse] at hx
    simp only [Bool.not_eq_true']
    exact beq_eq_false_iff_ne.mpr (fun he => h (he ▸ hx)))]
  rw [List.dropWhile_cons, if_neg (by simp)]
  simp [stringMk_data]

/-- `write_file` raises only IOError, never ValueError. -/
theorem write_file_no_valueError (fs : FS) (p c : String)
    (g : FS → FS × String) (msg : String) :
    Except.map g (write_file fs p c) ≠ .error (.valueError msg) := by
  intro h
  rw [write_file] at h
  split at h
  · simp [Except.map] at h
  · split at h
    · simp [Except.map] at h
    · simp [Except.map] at h

/-- `save_user_prompt` with an accepted subfolder never raises ValueError:
past the validation the only fallible step is the write, an IOError. -/
theorem save_user_prompt_found_no_valueError (fs : FS)
    (uid fn content sub dir msg : String)
    (huser : pathExists fs (userBase uid) = true)
    (hlk : (user_paths_list uid).lookup sub = some dir) :
    save_user_prompt fs uid fn content sub ≠ .error (.valueError msg) := by
  intro h
  simp only [save_user_prompt, get_user_paths, huser, if_true, Bind.bind,
    Except.bind, hlk] at h
  exact write_file_no_valueError _ _ _ _ _ h

theorem hexDig_ne_slash (d : Nat) (h : d < 16) : hexDig d ≠ '/' := by
  interval_cases d <;> decide

theorem hexFold_ne_slash (bytes : List Nat) :
    ∀ c ∈ bytes.foldr (fun b acc => hexByte b ++ acc) [], c ≠ '/' := by
  induction bytes with
  | nil => intro c hc; exact absurd hc (List.not_mem_nil c)
  | cons b bs ih =>
    intro c hc
    rw [List.foldr_cons] at hc
    rcases List.mem_append.mp hc with h1 | h2
    · rw [hexByte] at h1
      rcases List.mem_cons.mp h1 with he | h1
      · exact he ▸ hexDig_ne_slash _ (Nat.mod_lt _ (by omega))
      · rcases List.mem_cons.mp h1 with he | h1
        · exact he ▸ hexDig_ne_slash _ (Nat.mod_lt _ (by omega))
        · exact absurd h1 (List.not_mem_nil c)
    · exact ih c h2

/-- A truncated hex digest contains no slash. -/
theorem generate_hash_no_slash (s : String) (n : Nat) :
    '/' ∉ (generate_hash s n).data := by
  intro hm
  rw [generate_hash, stringMk_data] at hm
  rw [show (sha256Hexdigest s).data
      = (sha256Bytes (utf8 s)).foldr (fun b acc => hexByte b ++ acc) [] from by
    rw [sha256Hexdigest, hexdigest, stringMk_data]] at hm
  exact hexFold_ne_slash _ _ (List.take_subset _ _ hm) rfl

/-- A decimal rendering contains no slash. -/
theorem natDigs_no_slash (n : Nat) : '/' ∉ natDigs n := by
  intro hm
  have h := natDigs_all_isDec n '/' hm
  exact absurd h (by decide)

/-- The generated seed filename is a single path segment. -/
theorem seed_filename_no_slash (user_id : String) (seedTime : Moment) :
    '/' ∉ ("seed_prompt_" ++ generate_hash (user_id ++ seedTime.asStr) 8
      ++ "_" ++ String.mk (natDigs seedTime.whole) ++ ".xml").data := by
  intro hm
  simp only [String.data_append, List.mem_append, stringMk_data] at hm
  rcases hm with ((((hm | hm) | hm) | hm) | hm)
  · exact absurd hm (by decide)
  · exact generate_hash_no_slash _ _ hm
  · exact absurd hm (by decide)
  · exact natDigs_no_slash _ hm
  · exact absurd hm (by decide)

/-! ## C10: save_user_prompt subfolder validation -/

/-- C10.  For every existing user, `save_user_prompt` raises ValueError
exactly when the requested subfolder is not one of the six keys of the
user-paths dict (`base`, `context`, `prompts`, `seeds`, `feedback`,
`interaction_dumps`); in particular `base` is accepted and the file is
written directly into the user's base directory. -/
theorem save_user_prompt_valueError_iff (fs : FS)
    (user_id fn content subfolder : String)
    (huser : pathExists fs (userBase user_id) = true) :
    ((∃ msg, save_user_prompt fs user_id fn content subfolder
        = .error (.valueError msg))
      ↔ subfolder ∉ ["base", "context", "prompts", "seeds", "feedback",
          "interaction_dumps"])
    ∧ save_user_prompt fs user_id fn content "base"
        = Except.map (fun fs2 => (fs2, pathJoin (userBase user_id) fn))
            (write_file fs (pathJoin (userBase user_id) fn) content) := by
  constructor
  · by_cases hmem : subfolder ∈ ["base", "context", "prompts", "seeds",
      "feedback", "interaction_dumps"]
    · simp only [List.mem_cons, List.mem_singleton, List.not_mem_nil, or_false] at hmem
      constructor
      · intro hex
        exfalso
        obtain ⟨msg, hmsg⟩ := hex
        rcases hmem with h | h | h | h | h | h <;> subst h
        · exact save_user_prompt_found_no_valueError fs user_id fn content
            "base" (userBase user_id) msg huser rfl hmsg
        · exact save_user_prompt_found_no_valueError fs user_id fn content
            "context" (pathJoin (userBase user_id) "context") msg huser rfl hmsg
        · exact save_user_prompt_found_no_valueError fs user_id fn content
            "prompts" (pathJoin (userBase user_id) "prompts") msg huser rfl hmsg
        · exact save_user_prompt_found_no_valueError fs user_id fn content
            "seeds" (pathJoin (userBase user_id) "seeds") msg huser rfl hmsg
        · exact save_user_prompt_found_no_valueError fs user_id fn content
            "feedback" (pathJoin (userBase user_id) "feedback") msg huser rfl hmsg
        · exact save_user_prompt_found_no_valueError fs user_id fn content
            "interaction_dumps" (pathJoin (userBase user_id) "interaction_dumps")
            msg huser rfl hmsg
      · intro hmem2
        exact absurd (by simpa using hmem) hmem2
    · constructor
      · intro _; exact hmem
      · intro _
        simp only [List.mem_cons, List.mem_singleton, List.not_mem_nil,
          or_false, not_or] at hmem
        obtain ⟨h1, h2, h3, h4, h5, h6⟩ := hmem
        refine ⟨"Invalid subfolder: " ++ subfolder
          ++ ". Valid options are: base, context, prompts, seeds, feedback, interaction_dumps", ?_⟩
        simp [save_user_prompt, get_user_paths, huser, user_paths_list,
          List.lookup, Bind.bind, Except.bind,
          beq_eq_false_iff_ne.mpr h1, beq_eq_false_iff_ne.mpr h2,
          beq_eq_false_iff_ne.mpr h3, beq_eq_false_iff_ne.mpr h4,
          beq_eq_false_iff_ne.mpr h5, beq_eq_false_iff_ne.mpr h6]
  · simp [save_user_prompt, get_user_paths, huser, user_paths_list, List.lookup,
      Bind.bind, Except.bind]

/-- C10 witness: a concrete user that exists; `base` is accepted and an
unknown subfolder is rejected with ValueError. -/
theorem save_user_prompt_valueError_iff_witness :
    pathExists ⟨[userBase "u1"], []⟩ (userBase "u1") = true
    ∧ ((∃ msg, save_user_prompt ⟨[userBase "u1"], []⟩ "u1" "f.txt" "c" "attic"
        = .error (.valueError msg))
      ↔ "attic" ∉ ["base", "context", "prompts", "seeds", "feedback",
          "interaction_dumps"])
    ∧ save_user_prompt ⟨[userBase "u1"], []⟩ "u1" "f.txt" "c" "base"
        = Except.map (fun fs2 => (fs2, pathJoin (userBase "u1") "f.txt"))
            (write_file ⟨[userBase "u1"], []⟩
              (pathJoin (userBase "u1") "f.txt") "c") := by
  refine ⟨by decide, ?_, ?_⟩
  · exact (save_user_prompt_valueError_iff ⟨[userBase "u1"], []⟩ "u1" "f.txt" "c"
      "attic" (by decide)).1
  · exact (save_user_prompt_valueError_iff ⟨[userBase "u1"], []⟩ "u1" "f.txt" "c"
      "attic" (by decide)).2

/-! ## C9: empty context directory aggregates to the empty string -/

/-- C9.  If the user's context directory exists but no entry in it ends in
`.txt` or `.md`, `get_user_context_string` returns the empty string and
raises nothing. -/
theorem get_user_context_string_no_match (fs : FS) (user_id : String)
    (hbase : pathExists fs (userBase user_id) = true)
    (hctx : pathExists fs (pathJoin (userBase user_id) "context") = true)
    (hnone : ∀ f ∈ listdir fs (pathJoin (userBase user_id) "context"),
      pyEndsWith f ".txt" = false ∧ pyEndsWith f ".md" = false) :
    get_user_context_string fs user_id = .ok "" := by
  have hfilter : (listdir fs (pathJoin (userBase user_id) "context")).filter
      (fun f => (pyEndsWith f ".txt" || pyEndsWith f ".md")
        && isFile fs (pathJoin (pathJoin (userBase user_id) "context") f)) = [] := by
    rw [List.filter_eq_nil_iff]
    intro f hf
    obtain ⟨h1, h2⟩ := hnone f hf
    simp [h1, h2]
  simp [get_user_context_string, get_user_paths, hbase, hctx, hfilter,
    Bind.bind, Except.bind]

/-- C9 witness: a context directory holding only `notes.pdf` aggregates to
`""` without an error. -/
theorem get_user_context_string_no_match_witness :
    pathExists ⟨[userBase "u1", pathJoin (userBase "u1") "context"],
      [(pathJoin (pathJoin (userBase "u1") "context") "notes.pdf", some "x")]⟩
      (userBase "u1") = true
    ∧ get_user_context_string
        ⟨[userBase "u1", pathJoin (userBase "u1") "context"],
          [(pathJoin (pathJoin (userBase "u1") "context") "notes.pdf", some "x")]⟩
        "u1" = .ok "" := by
  refine ⟨by decide, ?_⟩
  exact get_user_context_string_no_match _ "u1" (by decide) (by decide) (by decide)

/-! ## C6: non-recognized extensions never contribute -/

theorem mem_insertSorted {x y : String} : ∀ {l : List String},
    x ∈ insertSorted y l ↔ x = y ∨ x ∈ l := by
  intro l
  induction l with
  | nil => simp [insertSorted]
  | cons z zs ih =>
    by_cases h : strLeB y z = true
    · simp [insertSorted, h]
    · simp [insertSorted, h, ih]
      tauto

theorem mem_sortStrings {x : String} : ∀ {l : List String},
    x ∈ sortStrings l → x ∈ l := by
  intro l
  induction l with
  | nil => simp [sortStrings]
  | cons z zs ih =>
    intro hx
    rw [sortStrings, mem_insertSorted] at hx
    rcases hx with h | h
    · simp [h]
    · simp [ih h]

theorem mapM_congr_except {α β ε : Type} (l : List α) (f g : α → Except ε β)
    (h : ∀ x ∈ l, f x = g x) : l.mapM f = l.mapM g := by
  induction l with
  | nil => rfl
  | cons x xs ih =>
    rw [List.mapM_cons, List.mapM_cons, h x (by simp),
      ih (fun y hy => h y (by simp [hy]))]

/-- C6.  A file whose name ends in neither `.txt` nor `.md`, added to the
user's context directory, leaves the aggregated output unchanged — in
particular an `ignored.pdf` never appears in the output. -/
theorem get_user_context_string_ignores_other_ext (fs : FS)
    (user_id fname : String) (c : Option String)
    (hext1 : pyEndsWith fname ".txt" = false)
    (hext2 : pyEndsWith fname ".md" = false)
    (hne : fname.data ≠ []) (hslash : fname.data.contains '/' = false) :
    get_user_context_string
      ⟨fs.dirs,
        (pathJoin (pathJoin (userBase user_id) "context") fname, c) :: fs.files⟩
      user_id
      = get_user_context_string fs user_id := by
  set base := userBase user_id with hbase_def
  set ctx := pathJoin (userBase user_id) "context" with hctx_def
  set fs' : FS := ⟨fs.dirs, (pathJoin ctx fname, c) :: fs.files⟩ with hfs'
  have hlbase : base.length ≤ ctx.length := by
    rw [hctx_def, hbase_def]
    simp only [pathJoin]
    rw [string_length_append, string_length_append]
    omega
  have hfile_eq : ∀ q : String, q.length ≤ ctx.length → isFile fs' q = isFile fs q := by
    intro q hq
    simp [hfs', isFile, List.any_cons,
      beq_eq_false_iff_ne.mpr (pathJoin_ne_short hq)]
  have hex_base : pathExists fs' base = pathExists fs base := by
    simp [pathExists, hfile_eq base hlbase]
  have hex_ctx : pathExists fs' ctx = pathExists fs ctx := by
    simp [pathExists, hfile_eq ctx (le_refl _)]
  have hlist : listdir fs' ctx = fname :: listdir fs ctx := by
    simp [hfs', listdir, List.filterMap_cons,
      childName_pathJoin ctx fname hne hslash]
  have hfname_ne : ∀ x : String, pyEndsWith x ".txt" = true ∨ pyEndsWith x ".md" = true →
      fname ≠ x := by
    rintro x (hx | hx) rfl
    · rw [hext1] at hx; exact absurd hx (by simp)
    · rw [hext2] at hx; exact absurd hx (by simp)
  have hpred : ∀ x : String,
      ((pyEndsWith x ".txt" || pyEndsWith x ".md") && isFile fs' (pathJoin ctx x))
        = ((pyEndsWith x ".txt" || pyEndsWith x ".md") && isFile fs (pathJoin ctx x)) := by
    intro x
    by_cases hx : (pyEndsWith x ".txt" || pyEndsWith x ".md") = true
    · have hne2 : fname ≠ x := hfname_ne x (by
        rcases Bool.or_eq_true_iff.mp hx with h | h
        · exact Or.inl h
        · exact Or.inr h)
      have : isFile fs' (pathJoin ctx x) = isFile fs (pathJoin ctx x) := by
        simp [hfs', isFile, List.any_cons,
          beq_eq_false_iff_ne.mpr (fun hc => hne2 (pathJoin_inj_right.mp hc))]
      rw [hx, this]
    · rw [Bool.not_eq_true] at hx
      rw [hx]
      simp
  have hfilter : (listdir fs' ctx).filter
      (fun f => (pyEndsWith f ".txt" || pyEndsWith f ".md")
        && isFile fs' (pathJoin ctx f))
      = (listdir fs ctx).filter
        (fun f => (pyEndsWith f ".txt" || pyEndsWith f ".md")
          && isFile fs (pathJoin ctx f)) := by
    rw [hlist, List.filter_cons]
    rw [show ((pyEndsWith fname ".txt" || pyEndsWith fname ".md")
        && isFile fs' (pathJoin ctx fname)) = false from by
      simp [hext1, hext2]]
    simp only [Bool.false_eq_true, if_false]
    exact List.filter_congr (fun x _ => hpred x)
  have hread : ∀ x : String, fname ≠ x →
      read_file fs' (pathJoin ctx x) = read_file fs (pathJoin ctx x) := by
    intro x hne2
    simp [hfs', read_file, lookupFile, List.find?_cons,
      beq_eq_false_iff_ne.mpr (fun hc => hne2 (pathJoin_inj_right.mp hc))]
  rw [get_user_context_string, get_user_context_string]
  rw [show get_user_paths fs' user_id = get_user_paths fs user_id from by
    simp [get_user_paths, hex_base]]
  cases hup : get_user_paths fs user_id with
  | error e => rfl
  | ok paths =>
    simp only [Bind.bind, Except.bind, hex_ctx, hfilter]
    by_cases hctx2 : pathExists fs ctx = true
    · simp only [hctx2, Bool.not_true, Bool.false_eq_true, if_false]
      by_cases hflt : (listdir fs ctx).filter
          (fun f => (pyEndsWith f ".txt" || pyEndsWith f ".md")
            && isFile fs (pathJoin ctx f)) = []
      · simp [hflt]
      · simp only [hflt, if_neg hflt]
        rw [mapM_congr_except]
        intro x hx
        have hx2 := mem_sortStrings hx
        have hx3 := List.of_mem_filter hx2
        have hne2 : fname ≠ x := hfname_ne x (by
          rcases Bool.and_eq_true_iff.mp hx3 with ⟨h1, _⟩
          rcases Bool.or_eq_true_iff.mp h1 with h | h
          · exact Or.inl h
          · exact Or.inr h)
        rw [hread x hne2]
    · simp [hctx2]

/-- C6 witness: `ignored.pdf` next to a `.txt` file changes nothing. -/
theorem get_user_context_string_ignores_other_ext_witness :
    pyEndsWith "ignored.pdf" ".txt" = false
    ∧ get_user_context_string
        ⟨[userBase "u1", pathJoin (userBase "u1") "context"],
          (pathJoin (pathJoin (userBase "u1") "context") "ignored.pdf", some "P")
            :: [(pathJoin (pathJoin (userBase "u1") "context") "a.txt", some "A")]⟩
        "u1"
      = get_user_context_string
        ⟨[userBase "u1", pathJoin (userBase "u1") "context"],
          [(pathJoin (pathJoin (userBase "u1") "context") "a.txt", some "A")]⟩
        "u1" := by
  refine ⟨by decide, ?_⟩
  exact get_user_context_string_ignores_other_ext
    ⟨[userBase "u1", pathJoin (userBase "u1") "context"],
      [(pathJoin (pathJoin (userBase "u1") "context") "a.txt", some "A")]⟩
    "u1" "ignored.pdf" (some "P") (by decide) (by decide) (by decide) (by decide)

/-! ## C5: exact ordering and format of context aggregation -/

/-- A directory's own path, or any path extending `d ++ "/"` backwards,
is not a child entry: the candidate is a strict prefix of `d ++ "/"`. -/
theorem childName_extra (d q : String) (E : List Char) (hE : E ≠ [])
    (h : (d ++ "/").data = q.data ++ E) : childName d q = none := by
  have h2 := dropPref_append_left q.data E []
  rw [List.append_nil] at h2
  rw [childName, h, h2]
  obtain ⟨e, es, rfl⟩ := List.exists_cons_of_ne_nil hE
  rfl

/-- The filesystem of C5: the user's context directory holds exactly
`background.txt`, `challenges.txt` and `goals.md`. -/
def threeCtxFS (user_id cb cc cg : String) : FS :=
  ⟨[userBase user_id, pathJoin (userBase user_id) "context"],
   [(pathJoin (pathJoin (userBase user_id) "context") "background.txt", some cb),
    (pathJoin (pathJoin (userBase user_id) "context") "challenges.txt", some cc),
    (pathJoin (pathJoin (userBase user_id) "context") "goals.md", some cg)]⟩

/-- C5.  With exactly `background.txt`, `challenges.txt` and `goals.md`
(distinct contents) in the context directory, aggregation lists them in
lexicographic filename order, each as a header line naming the file, a
dash separator line of the header's length, and the file's exact content,
with a blank line between consecutive files. -/
theorem get_user_context_string_three_files (user_id cb cc cg : String)
    (hd1 : cb ≠ cc) (hd2 : cb ≠ cg) (hd3 : cc ≠ cg) :
    get_user_context_string (threeCtxFS user_id cb cc cg) user_id
      = .ok ("### Context from background.txt ###"
          ++ "\n" ++ "-----------------------------------" ++ "\n" ++ cb
          ++ "\n\n" ++ "### Context from challenges.txt ###"
          ++ "\n" ++ "-----------------------------------" ++ "\n" ++ cc
          ++ "\n\n" ++ "### Context from goals.md ###"
          ++ "\n" ++ "-----------------------------" ++ "\n" ++ cg) := by
  set base := userBase user_id with hbase_def
  set ctx := pathJoin (userBase user_id) "context" with hctx_def
  have hbase : pathExists (threeCtxFS user_id cb cc cg) base = true := by
    simp [threeCtxFS, pathExists, List.contains]
  have hctx : pathExists (threeCtxFS user_id cb cc cg) ctx = true := by
    simp [threeCtxFS, pathExists, List.contains]
  have hcn_base : childName ctx base = none := by
    refine childName_extra ctx base ("/".data ++ ("context".data ++ "/".data))
      (by decide) ?_
    rw [hctx_def, hbase_def]
    simp [pathJoin, String.data_append, List.append_assoc]
  have hcn_ctx : childName ctx ctx = none := by
    refine childName_extra ctx ctx ("/".data) (by decide) (String.data_append ..)
  have hlist : listdir (threeCtxFS user_id cb cc cg) ctx
      = ["background.txt", "challenges.txt", "goals.md"] := by
    simp [threeCtxFS, listdir, List.filterMap_cons, hcn_base, hcn_ctx,
      childName_pathJoin ctx "background.txt" (by decide) (by decide),
      childName_pathJoin ctx "challenges.txt" (by decide) (by decide),
      childName_pathJoin ctx "goals.md" (by decide) (by decide)]
  have hbeq_bc : (pathJoin ctx "background.txt" == pathJoin ctx "challenges.txt") = false :=
    pathJoin_beq_false (by decide)
  have hbeq_bg : (pathJoin ctx "background.txt" == pathJoin ctx "goals.md") = false :=
    pathJoin_beq_false (by decide)
  have hbeq_cg : (pathJoin ctx "challenges.txt" == pathJoin ctx "goals.md") = false :=
    pathJoin_beq_false (by decide)
  have hsort : sortStrings ["background.txt", "challenges.txt", "goals.md"]
      = ["background.txt", "challenges.txt", "goals.md"] := by decide
  have hreadb : read_file (threeCtxFS user_id cb cc cg) (pathJoin ctx "background.txt")
      = .ok cb := by
    simp [threeCtxFS, read_file, lookupFile, List.find?_cons]
  have hreadc : read_file (threeCtxFS user_id cb cc cg) (pathJoin ctx "challenges.txt")
      = .ok cc := by
    simp [threeCtxFS, read_file, lookupFile, List.find?_cons, hbeq_bc]
  have hreadg : read_file (threeCtxFS user_id cb cc cg) (pathJoin ctx "goals.md")
      = .ok cg := by
    simp [threeCtxFS, read_file, lookupFile, List.find?_cons, hbeq_bg, hbeq_cg]
  have hfileb : isFile (threeCtxFS user_id cb cc cg) (pathJoin ctx "background.txt") = true := by
    simp [threeCtxFS, isFile]
  have hfilec : isFile (threeCtxFS user_id cb cc cg) (pathJoin ctx "challenges.txt") = true := by
    simp [threeCtxFS, isFile]
  have hfileg : isFile (threeCtxFS user_id cb cc cg) (pathJoin ctx "goals.md") = true := by
    simp [threeCtxFS, isFile]
  have hblockb : ctxBlock "background.txt" cb
      = "### Context from background.txt ###"
        ++ "\n" ++ "-----------------------------------" ++ "\n" ++ cb := by
    rw [ctxBlock,
      show ctxHeader "background.txt" = "### Context from background.txt ###" from by decide,
      show ctxSep "background.txt" = "-----------------------------------" from by decide]
  have hblockc : ctxBlock "challenges.txt" cc
      = "### Context from challenges.txt ###"
        ++ "\n" ++ "-----------------------------------" ++ "\n" ++ cc := by
    rw [ctxBlock,
      show ctxHeader "challenges.txt" = "### Context from challenges.txt ###" from by decide,
      show ctxSep "challenges.txt" = "-----------------------------------" from by decide]
  have hblockg : ctxBlock "goals.md" cg
      = "### Context from goals.md ###"
        ++ "\n" ++ "-----------------------------" ++ "\n" ++ cg := by
    rw [ctxBlock,
      show ctxHeader "goals.md" = "### Context from goals.md ###" from by decide,
      show ctxSep "goals.md" = "-----------------------------" from by decide]
  rw [get_user_context_string]
  rw [show get_user_paths (threeCtxFS user_id cb cc cg) user_id
      = .ok (user_paths_list user_id) from by simp [get_user_paths, hbase]]
  simp only [Bind.bind, Except.bind, hctx, Bool.not_true, Bool.false_eq_true,
    if_false, hlist]
  rw [show (["background.txt", "challenges.txt", "goals.md"].filter
      (fun f => (pyEndsWith f ".txt" || pyEndsWith f ".md")
        && isFile (threeCtxFS user_id cb cc cg) (pathJoin ctx f)))
      = ["background.txt", "challenges.txt", "goals.md"] from by
    simp [List.filter_cons, hfileb, hfilec, hfileg]
    decide]
  simp only [hsort, List.mapM_cons, List.mapM_nil, hreadb, hreadc, hreadg,
    Bind.bind, Except.bind, pure, Except.pure]
  rw [if_neg (by decide :
    ¬ (["background.txt", "challenges.txt", "goals.md"] : List String) = [])]
  rw [hblockb, hblockc, hblockg]
  simp only [joinSep]
  simp only [String.append_assoc]

/-- C5 witness: concrete distinct contents produce exactly the expected
aggregated text. -/
theorem get_user_context_string_three_files_witness :
    ("B" : String) ≠ "C" ∧ ("B" : String) ≠ "G" ∧ ("C" : String) ≠ "G"
    ∧ get_user_context_string (threeCtxFS "u1" "B" "C" "G") "u1"
      = .ok ("### Context from background.txt ###"
          ++ "\n" ++ "-----------------------------------" ++ "\n" ++ "B"
          ++ "\n\n" ++ "### Context from challenges.txt ###"
          ++ "\n" ++ "-----------------------------------" ++ "\n" ++ "C"
          ++ "\n\n" ++ "### Context from goals.md ###"
          ++ "\n" ++ "-----------------------------" ++ "\n" ++ "G") :=
  ⟨by decide, by decide, by decide,
   get_user_context_string_three_files "u1" "B" "C" "G"
     (by decide) (by decide) (by decide)⟩

/-! ## C7: user-id length and (non-)uniqueness -/

theorem length_foldr_hexByte (bytes : List Nat) :
    (bytes.foldr (fun b acc => hexByte b ++ acc) []).length = 2 * bytes.length := by
  induction bytes with
  | nil => rfl
  | cons b bs ih =>
    rw [List.foldr_cons, List.length_append, ih]
    simp [hexByte]
    omega

theorem sha256Bytes_length (msg : List Nat) : (sha256Bytes msg).length = 32 := by
  simp [sha256Bytes, wordBytes]

/-- The hex digest always has 64 characters, so a truncation to
`n ≤ 64` characters has exactly `n`. -/
theorem generate_hash_length (s : String) (n : Nat) (hn : n ≤ 64) :
    (generate_hash s n).length = n := by
  rw [generate_hash, String.length_mk, List.length_take]
  rw [show (sha256Hexdigest s).data
      = (sha256Bytes (utf8 s)).foldr (fun b acc => hexByte b ++ acc) [] from rfl]
  rw [length_foldr_hexByte, sha256Bytes_length]
  exact min_eq_left hn

/-- C7 counterexample: two `create_user` calls with the identical
human-readable identifier and the identical clock reading return the
identical generated id — the generated ids are not collision-free across
calls, because the id is a deterministic function of identifier and
clock. -/
theorem create_user_same_clock_collides :
    (create_user ⟨[], []⟩ "alice" ⟨"1700000000.0", 1700000000⟩).2
      = (create_user
          ((create_user ⟨[], []⟩ "alice" ⟨"1700000000.0", 1700000000⟩).1)
          "alice" ⟨"1700000000.0", 1700000000⟩).2 := rfl

/-- C7 (amended).  Every `create_user` call returns a 16-character id, and
two calls with the same identifier return distinct ids exactly when the
truncated SHA-256 digests of identifier-plus-clock-reading differ — which
a repeated clock reading (or a 16-hex-character digest collision)
violates. -/
theorem create_user_id_length_and_distinct (fs1 fs2 : FS) (ident : String)
    (m1 m2 : Moment)
    (hne : generate_hash (ident ++ m1.asStr) 16
      ≠ generate_hash (ident ++ m2.asStr) 16) :
    (create_user fs1 ident m1).2.length = 16
    ∧ (create_user fs1 ident m1).2 ≠ (create_user fs2 ident m2).2 := by
  constructor
  · rw [show (create_user fs1 ident m1).2
        = generate_hash (ident ++ m1.asStr) 16 from rfl]
    exact generate_hash_length _ _ (by omega)
  · intro h
    exact hne h

/-- C7 witness: distinct clock readings with distinct truncated digests
give distinct 16-character ids. -/
theorem create_user_id_length_and_distinct_witness :
    generate_hash ("alice" ++ "1700000000.0") 16
      ≠ generate_hash ("alice" ++ "1700000001.0") 16
    ∧ (create_user ⟨[], []⟩ "alice" ⟨"1700000000.0", 1700000000⟩).2.length = 16
    ∧ (create_user ⟨[], []⟩ "alice" ⟨"1700000000.0", 1700000000⟩).2
      ≠ (create_user ⟨[], []⟩ "alice" ⟨"1700000001.0", 1700000001⟩).2 := by
  have h : generate_hash ("alice" ++ "1700000000.0") 16
      ≠ generate_hash ("alice" ++ "1700000001.0") 16 := by decide
  exact ⟨h,
    (create_user_id_length_and_distinct ⟨[], []⟩ ⟨[], []⟩ "alice"
      ⟨"1700000000.0", 1700000000⟩ ⟨"1700000001.0", 1700000001⟩ h).1,
    (create_user_id_length_and_distinct ⟨[], []⟩ ⟨[], []⟩ "alice"
      ⟨"1700000000.0", 1700000000⟩ ⟨"1700000001.0", 1700000001⟩ h).2⟩

/-! ## C8: the log is append-only and records are immutable -/

/-- The arguments of one `log_operation` call, clock reading included. -/
structure LogArgs where
  user_id : String
  operation_type : String
  pipeline_name : Option String
  input_params : Option JObj
  output_ref : Option JObj
  status : String
  notes : Option String
  timestamp : String
deriving DecidableEq

def applyLog (db : DB) (a : LogArgs) : DB :=
  log_operation db a.user_id a.operation_type a.pipeline_name a.input_params
    a.output_ref a.status a.notes a.timestamp

/-- A sequence of `log_operation` calls. -/
def appendLogs (db : DB) : List LogArgs → DB
  | [] => db
  | a :: rest => appendLogs (applyLog db a) rest

/-- Any sequence of appends only ever extends the stored row list. -/
theorem appendLogs_prefix : ∀ (args : List LogArgs) (db : DB),
    ∃ suffix, (appendLogs db args).records = db.records ++ suffix := by
  intro args
  induction args with
  | nil => intro db; exact ⟨[], by simp [appendLogs]⟩
  | cons a rest ih =>
    intro db
    obtain ⟨suffix, hs⟩ := ih (applyLog db a)
    refine ⟨mkRecord db.nextId a.user_id a.operation_type a.pipeline_name
      a.input_params a.output_ref a.status a.notes a.timestamp :: suffix, ?_⟩
    rw [appendLogs, hs]
    simp [applyLog, log_operation]

/-- C8.  The store is append-only and rows are immutable: re-initializing
an existing store changes nothing, one append extends the row list by
exactly the one new row (all prior rows unchanged), and a row once written
is contained — with all its fields as written — in the stored rows, and in
every admissible per-user query row list, after any further sequence of
appends. -/
theorem log_store_append_only (db : DB) (a : LogArgs) (args : List LogArgs)
    (r : LogRecord) (hr : r ∈ db.records) :
    setup_database (some db) = db
    ∧ (applyLog db a).records = db.records
        ++ [mkRecord db.nextId a.user_id a.operation_type a.pipeline_name
          a.input_params a.output_ref a.status a.notes a.timestamp]
    ∧ r ∈ (appendLogs db args).records
    ∧ ∀ rows, rows_admissible (appendLogs db args) r.user_id rows → r ∈ rows := by
  refine ⟨rfl, rfl, ?_, ?_⟩
  · obtain ⟨suffix, hs⟩ := appendLogs_prefix args db
    rw [hs]
    exact List.mem_append_left _ hr
  · intro rows hadm
    obtain ⟨hperm, _⟩ := hadm
    rw [List.Perm.mem_iff hperm]
    rw [List.mem_filter]
    obtain ⟨suffix, hs⟩ := appendLogs_prefix args db
    refine ⟨by rw [hs]; exact List.mem_append_left _ hr, by simp⟩

/-- C8 witness: a stored row survives one further append unchanged and
appears in a concrete admissible query result. -/
theorem log_store_append_only_witness :
    (mkRecord 1 "u" "OP_A" none none none "SUCCESS" none "2024-01-01 00:00:00.000001")
      ∈ (⟨2, [mkRecord 1 "u" "OP_A" none none none "SUCCESS" none
          "2024-01-01 00:00:00.000001"]⟩ : DB).records
    ∧ rows_admissible
        (appendLogs ⟨2, [mkRecord 1 "u" "OP_A" none none none "SUCCESS" none
          "2024-01-01 00:00:00.000001"]⟩
          [⟨"u", "OP_B", none, none, none, "SUCCESS", none,
            "2024-01-01 00:00:00.000002"⟩])
        "u"
        [mkRecord 2 "u" "OP_B" none none none "SUCCESS" none
          "2024-01-01 00:00:00.000002",
         mkRecord 1 "u" "OP_A" none none none "SUCCESS" none
          "2024-01-01 00:00:00.000001"]
    ∧ (mkRecord 1 "u" "OP_A" none none none "SUCCESS" none
        "2024-01-01 00:00:00.000001")
      ∈ [mkRecord 2 "u" "OP_B" none none none "SUCCESS" none
          "2024-01-01 00:00:00.000002",
         mkRecord 1 "u" "OP_A" none none none "SUCCESS" none
          "2024-01-01 00:00:00.000001"] := by
  have hadm : rows_admissible
      (appendLogs ⟨2, [mkRecord 1 "u" "OP_A" none none none "SUCCESS" none
        "2024-01-01 00:00:00.000001"]⟩
        [⟨"u", "OP_B", none, none, none, "SUCCESS", none,
          "2024-01-01 00:00:00.000002"⟩])
      "u"
      [mkRecord 2 "u" "OP_B" none none none "SUCCESS" none
        "2024-01-01 00:00:00.000002",
       mkRecord 1 "u" "OP_A" none none none "SUCCESS" none
        "2024-01-01 00:00:00.000001"] := by
    constructor
    · decide
    · refine List.Pairwise.cons ?_ (List.pairwise_singleton _ _)
      intro b hb
      rw [List.mem_singleton] at hb
      subst hb
      decide
  refine ⟨by decide, hadm, ?_⟩
  exact (log_store_append_only
    ⟨2, [mkRecord 1 "u" "OP_A" none none none "SUCCESS" none
      "2024-01-01 00:00:00.000001"]⟩
    ⟨"u", "OP_B", none, none, none, "SUCCESS", none,
      "2024-01-01 00:00:00.000002"⟩
    [⟨"u", "OP_B", none, none, none, "SUCCESS", none,
      "2024-01-01 00:00:00.000002"⟩]
    _ (by decide)).2.2.2 _ hadm

/-! ## C4: payload round trip on append / read -/

theorem mapM_except_mem {α β ε : Type} : ∀ (l : List α) (f : α → Except ε β)
    (res : List β), l.mapM f = .ok res → ∀ x ∈ l, ∃ y ∈ res, f x = .ok y := by
  intro l
  induction l with
  | nil => intro f res _ x hx; exact absurd hx (List.not_mem_nil x)
  | cons a t ih =>
    intro f res hmap x hx
    rw [List.mapM_cons] at hmap
    cases hfa : f a with
    | error e =>
      rw [hfa] at hmap
      exact absurd hmap (by simp [Bind.bind, Except.bind])
    | ok y =>
      rw [hfa] at hmap
      cases hft : t.mapM f with
      | error e =>
        rw [hft] at hmap
        exact absurd hmap (by simp [Bind.bind, Except.bind, pure, Except.pure])
      | ok ys =>
        rw [hft] at hmap
        have hres : res = y :: ys := by
          have := hmap
          simp [Bind.bind, Except.bind, pure, Except.pure] at this
          exact this.symm
        subst hres
        rcases List.mem_cons.mp hx with rfl | hxt
        · exact ⟨y, by simp, hfa⟩
        · obtain ⟨z, hz, hfz⟩ := ih f ys hft x hxt
          exact ⟨z, by simp [hz], hfz⟩

theorem dumps_ne_empty (m : JObj) : dumps m ≠ "" := by
  intro h
  have := congrArg String.data h
  rw [dumps] at this
  exact absurd this (by simp)

/-- C4 counterexample: the claim fails at the empty mapping — `log_operation`
passes the dict through Python truthiness (`if input_params`), so the
empty dict is stored as NULL and read back as None, not as an empty
mapping. -/
theorem log_payload_roundtrip_fails_on_empty :
    ¬ (∀ (m : JObj) (res : List OpRecord),
        query_admissible
          (applyLog ⟨1, []⟩ ⟨"u", "OP", none, some m, some m, "SUCCESS", none, "t"⟩)
          "u" res →
        ∃ o ∈ res, o.input_params = some m) := by
  intro h
  have hq : query_admissible
      (applyLog ⟨1, []⟩ ⟨"u", "OP", none, some [], some [], "SUCCESS", none, "t"⟩)
      "u" [⟨1, "t", "u", none, "OP", none, none, "SUCCESS", none⟩] := by
    refine ⟨[mkRecord 1 "u" "OP" none (some []) (some []) "SUCCESS" none "t"],
      ⟨?_, ?_⟩, ?_⟩
    · simp [applyLog, log_operation, mkRecord]
    · exact List.pairwise_singleton _ _
    · rfl
  obtain ⟨o, ho, hip⟩ := h [] _ hq
  rw [List.mem_singleton] at ho
  subst ho
  exact absurd hip (by decide)

/-- C4 (amended).  For a non-empty mapping passed as `input_params` and a
non-empty mapping passed as `output_ref`, every admissible query result
after the append contains the newly written record (under the store-assigned
id) carrying both payloads as mappings equal to the originals: the
serialize-on-append / parse-on-read round trip is the identity on
non-empty mappings. -/
theorem log_payload_roundtrip (db : DB) (a : LogArgs) (m mo : JObj)
    (hip : a.input_params = some m) (hm : m ≠ [])
    (hor : a.output_ref = some mo) (hmo : mo ≠ [])
    (res : List OpRecord)
    (hq : query_admissible (applyLog db a) a.user_id res) :
    ∃ o ∈ res, o.id = db.nextId ∧ o.input_params = some m
      ∧ o.output_ref = some mo := by
  obtain ⟨rows, ⟨hperm, _⟩, hmap⟩ := hq
  have hmem : mkRecord db.nextId a.user_id a.operation_type a.pipeline_name
      a.input_params a.output_ref a.status a.notes a.timestamp ∈ rows := by
    rw [List.Perm.mem_iff hperm, List.mem_filter]
    refine ⟨?_, by simp [mkRecord]⟩
    simp [applyLog, log_operation]
  obtain ⟨o, ho, hparse⟩ := mapM_except_mem rows parseRow res hmap _ hmem
  refine ⟨o, ho, ?_⟩
  rw [parseRow] at hparse
  rw [show (mkRecord db.nextId a.user_id a.operation_type a.pipeline_name
      a.input_params a.output_ref a.status a.notes a.timestamp).input_params_json
      = some (dumps m) from by simp [mkRecord, jsonField, hip, hm]] at hparse
  rw [show (mkRecord db.nextId a.user_id a.operation_type a.pipeline_name
      a.input_params a.output_ref a.status a.notes a.timestamp).output_ref_json
      = some (dumps mo) from by simp [mkRecord, jsonField, hor, hmo]] at hparse
  rw [show parseJsonColumn (some (dumps m)) = .ok (some m) from by
    rw [parseJsonColumn]
    rw [if_neg (dumps_ne_empty m), loads_dumps]] at hparse
  rw [show parseJsonColumn (some (dumps mo)) = .ok (some mo) from by
    rw [parseJsonColumn]
    rw [if_neg (dumps_ne_empty mo), loads_dumps]] at hparse
  simp only [Bind.bind, Except.bind, mkRecord] at hparse
  have ho2 : o = ⟨db.nextId, a.timestamp, a.user_id, a.pipeline_name,
      a.operation_type, some m, some mo, a.status, a.notes⟩ := by
    simp [pure, Except.pure] at hparse
    exact hparse.symm
  rw [ho2]
  exact ⟨rfl, rfl, rfl⟩

/-- C4 witness: a concrete non-empty payload round-trips through the
store. -/
theorem log_payload_roundtrip_witness :
    query_admissible
      (applyLog ⟨1, []⟩ ⟨"u", "OP", none, some [("k", .str "v")],
        some [("n", .int 3)], "SUCCESS", none, "t"⟩)
      "u"
      [⟨1, "t", "u", none, "OP", some [("k", .str "v")],
        some [("n", .int 3)], "SUCCESS", none⟩]
    ∧ ∃ o ∈ [(⟨1, "t", "u", none, "OP", some [("k", .str "v")],
        some [("n", .int 3)], "SUCCESS", none⟩ : OpRecord)],
        o.id = (⟨1, []⟩ : DB).nextId
          ∧ o.input_params = some [("k", .str "v")]
          ∧ o.output_ref = some [("n", .int 3)] := by
  have hq : query_admissible
      (applyLog ⟨1, []⟩ ⟨"u", "OP", none, some [("k", .str "v")],
        some [("n", .int 3)], "SUCCESS", none, "t"⟩)
      "u"
      [⟨1, "t", "u", none, "OP", some [("k", .str "v")],
        some [("n", .int 3)], "SUCCESS", none⟩] := by
    refine ⟨[mkRecord 1 "u" "OP" none (some [("k", .str "v")])
      (some [("n", .int 3)]) "SUCCESS" none "t"], ⟨?_, ?_⟩, ?_⟩
    · simp [applyLog, log_operation, mkRecord]
    · exact List.pairwise_singleton _ _
    · rfl
  refine ⟨hq, ?_⟩
  exact log_payload_roundtrip ⟨1, []⟩
    ⟨"u", "OP", none, some [("k", .str "v")], some [("n", .int 3)],
      "SUCCESS", none, "t"⟩
    [("k", .str "v")] [("n", .int 3)] rfl (by decide) rfl (by decide) _ hq

/-! ## C1: per-user query order -/

theorem char_lt_iff_toNat (a b : Char) : a < b ↔ a.toNat < b.toNat := Iff.rfl

theorem char_eq_of_not_lt {a b : Char} (h1 : ¬ a < b) (h2 : ¬ b < a) : a = b :=
  le_antisymm (not_lt.mp h2) (not_lt.mp h1)

/-- Code-point order on character lists is transitive. -/
theorem listLtChars_trans : ∀ (a b c : List Char),
    listLtChars a b = true → listLtChars b c = true → listLtChars a c = true := by
  intro a
  induction a with
  | nil =>
    intro b c hab hbc
    cases b with
    | nil => exact absurd hab (by simp [listLtChars])
    | cons y ys =>
      cases c with
      | nil => exact absurd hbc (by simp [listLtChars])
      | cons z zs => simp [listLtChars]
  | cons x xs ih =>
    intro b c hab hbc
    cases b with
    | nil => exact absurd hab (by simp [listLtChars])
    | cons y ys =>
      cases c with
      | nil => exact absurd hbc (by simp [listLtChars])
      | cons z zs =>
        rw [listLtChars] at hab hbc ⊢
        by_cases hxy : x < y
        · by_cases hyz : y < z
          · rw [if_pos (char_lt_iff_toNat x z |>.mpr (by
              have h1 := (char_lt_iff_toNat x y).mp hxy
              have h2 := (char_lt_iff_toNat y z).mp hyz
              omega))]
          · by_cases hzy : z < y
            · rw [if_neg hyz, if_pos hzy] at hbc
              exact absurd hbc (by simp)
            · have hyz2 : y = z := char_eq_of_not_lt hyz hzy
              subst hyz2
              rw [if_pos hxy]
        · by_cases hyx : y < x
          · rw [if_neg hxy, if_pos hyx] at hab
            exact absurd hab (by simp)
          · have hxy2 : x = y := char_eq_of_not_lt hxy hyx
            subst hxy2
            rw [if_neg hxy, if_neg hyx] at hab
            by_cases hyz : x < z
            · rw [if_pos hyz]
            · by_cases hzy : z < x
              · rw [if_neg hyz, if_pos hzy] at hbc
                exact absurd hbc (by simp)
              · have hxz : x = z := char_eq_of_not_lt hyz hzy
                subst hxz
                rw [if_neg hyz, if_neg hzy] at hbc ⊢
                exact ih ys zs hab hbc

/-- A permutation of a strictly-descending list that is itself weakly
descending is that list: ORDER BY leaves no freedom when the keys are
pairwise distinct. -/
theorem perm_sorted_unique {α : Type} (key : α → List Char) :
    ∀ (l₁ l₂ : List α), List.Perm l₁ l₂ →
    l₁.Pairwise (fun a b => listLtChars (key b) (key a) = true) →
    l₂.Pairwise (fun a b => listLtChars (key a) (key b) = false) →
    l₁ = l₂ := by
  intro l₁
  induction l₁ with
  | nil =>
    intro l₂ hperm _ _
    exact List.Perm.nil_eq hperm
  | cons x t ih =>
    intro l₂ hperm hstrict hweak
    cases l₂ with
    | nil => exact absurd (List.Perm.nil_eq hperm.symm) (by simp)
    | cons y s =>
      have hxy : x = y := by
        by_contra hne
        have hy_mem : y ∈ x :: t := (List.Perm.mem_iff hperm).mpr (by simp)
        have hy_t : y ∈ t := by
          rcases List.mem_cons.mp hy_mem with h | h
          · exact absurd h.symm hne
          · exact h
        have hx_mem : x ∈ y :: s := (List.Perm.mem_iff hperm).mp (by simp)
        have hx_s : x ∈ s := by
          rcases List.mem_cons.mp hx_mem with h | h
          · exact absurd h hne
          · exact h
        have h1 : listLtChars (key y) (key x) = true :=
          (List.pairwise_cons.mp hstrict).1 y hy_t
        have h2 : listLtChars (key y) (key x) = false :=
          (List.pairwise_cons.mp hweak).1 x hx_s
        rw [h1] at h2
        exact absurd h2 (by simp)
      subst hxy
      have hts : t = s := ih s (List.Perm.cons_inv hperm)
        (List.pairwise_cons.mp hstrict).2 (List.pairwise_cons.mp hweak).2
      rw [hts]

/-- The record one `log_operation` call writes, given its identity. -/
def recOf (id : Nat) (a : LogArgs) : LogRecord :=
  mkRecord id a.user_id a.operation_type a.pipeline_name a.input_params
    a.output_ref a.status a.notes a.timestamp

/-- The order C1 asserts: strictly timestamp-descending, with timestamp
ties broken by insertion id descending. -/
def claimTieOrder (a b : LogRecord) : Prop :=
  listLtChars b.timestamp.data a.timestamp.data = true
    ∨ (a.timestamp = b.timestamp ∧ b.id < a.id)

/-- C1 counterexample: `ORDER BY timestamp DESC` specifies no order among
rows with equal timestamps, so a result listing two equal-timestamp rows
in ascending id order is admissible — the claimed id-descending tie-break
is not guaranteed by the query. -/
theorem query_tie_order_not_guaranteed :
    ¬ (∀ (db : DB) (uid : String) (rows : List LogRecord),
        rows_admissible db uid rows → rows.Pairwise claimTieOrder) := by
  intro h
  have hadm : rows_admissible
      (appendLogs ⟨1, []⟩
        [⟨"u", "OP_A", none, none, none, "SUCCESS", none, "T"⟩,
         ⟨"u", "OP_B", none, none, none, "SUCCESS", none, "T"⟩])
      "u"
      [recOf 1 ⟨"u", "OP_A", none, none, none, "SUCCESS", none, "T"⟩,
       recOf 2 ⟨"u", "OP_B", none, none, none, "SUCCESS", none, "T"⟩] := by
    constructor
    · simp [appendLogs, applyLog, log_operation, recOf, mkRecord]
    · refine List.Pairwise.cons ?_ (List.pairwise_singleton _ _)
      intro b hb
      rw [List.mem_singleton] at hb
      subst hb
      decide
  have hpair := h _ "u" _ hadm
  have hrel := (List.pairwise_cons.mp hpair).1
    (recOf 2 ⟨"u", "OP_B", none, none, none, "SUCCESS", none, "T"⟩) (by simp)
  rcases hrel with hlt | ⟨_, hid⟩
  · exact absurd hlt (by decide)
  · simp [recOf, mkRecord] at hid

/-- C1 (amended).  The per-user query returns all of the user's rows in
some timestamp-descending order (that is the query model); when a store
holding no rows for the user receives five sequential `log_operation`
calls for that user with strictly increasing timestamps, every admissible
result is exactly the five records in reverse insertion order.  The
relative order of equal-timestamp rows is not specified. -/
theorem query_newest_first (db : DB) (uid : String) (a1 a2 a3 a4 a5 : LogArgs)
    (hu : ∀ r ∈ db.records, r.user_id ≠ uid)
    (h1 : a1.user_id = uid) (h2 : a2.user_id = uid) (h3 : a3.user_id = uid)
    (h4 : a4.user_id = uid) (h5 : a5.user_id = uid)
    (t12 : listLtChars a1.timestamp.data a2.timestamp.data = true)
    (t23 : listLtChars a2.timestamp.data a3.timestamp.data = true)
    (t34 : listLtChars a3.timestamp.data a4.timestamp.data = true)
    (t45 : listLtChars a4.timestamp.data a5.timestamp.data = true) :
    ∀ rows, rows_admissible (appendLogs db [a1, a2, a3, a4, a5]) uid rows →
      rows = [recOf (db.nextId + 4) a5, recOf (db.nextId + 3) a4,
        recOf (db.nextId + 2) a3, recOf (db.nextId + 1) a2,
        recOf db.nextId a1] := by
  intro rows hadm
  obtain ⟨hperm, hsort⟩ := hadm
  have hrecords : (appendLogs db [a1, a2, a3, a4, a5]).records
      = db.records ++ [recOf db.nextId a1, recOf (db.nextId + 1) a2,
        recOf (db.nextId + 2) a3, recOf (db.nextId + 3) a4,
        recOf (db.nextId + 4) a5] := by
    show ((((db.records ++ _) ++ _) ++ _) ++ _) ++ _ = _
    simp [applyLog, log_operation, recOf, mkRecord, List.append_assoc]
  have hfilter : List.filter (fun r => r.user_id == uid)
      (appendLogs db [a1, a2, a3, a4, a5]).records
      = [recOf db.nextId a1, recOf (db.nextId + 1) a2,
        recOf (db.nextId + 2) a3, recOf (db.nextId + 3) a4,
        recOf (db.nextId + 4) a5] := by
    rw [hrecords, List.filter_append]
    rw [show List.filter (fun r => r.user_id == uid) db.records = [] from by
      rw [List.filter_eq_nil_iff]
      intro r hr
      simp [beq_eq_false_iff_ne.mpr (hu r hr)]]
    rw [List.nil_append]
    simp [recOf, mkRecord, h1, h2, h3, h4, h5]
  have t13 := listLtChars_trans _ _ _ t12 t23
  have t14 := listLtChars_trans _ _ _ t13 t34
  have t15 := listLtChars_trans _ _ _ t14 t45
  have t24 := listLtChars_trans _ _ _ t23 t34
  have t25 := listLtChars_trans _ _ _ t24 t45
  have t35 := listLtChars_trans _ _ _ t34 t45
  have hstrict : ([recOf (db.nextId + 4) a5, recOf (db.nextId + 3) a4,
      recOf (db.nextId + 2) a3, recOf (db.nextId + 1) a2,
      recOf db.nextId a1]).Pairwise
      (fun a b => listLtChars b.timestamp.data a.timestamp.data = true) := by
    simp only [List.pairwise_cons, List.mem_cons, List.mem_singleton,
      List.not_mem_nil, recOf, mkRecord]
    refine ⟨?_, ?_, ?_, ?_, ?_⟩
    · rintro b (rfl | rfl | rfl | rfl | hb)
      · exact t45
      · exact t35
      · exact t25
      · exact t15
      · exact hb.elim
    · rintro b (rfl | rfl | rfl | hb)
      · exact t34
      · exact t24
      · exact t14
      · exact hb.elim
    · rintro b (rfl | rfl | hb)
      · exact t23
      · exact t13
      · exact hb.elim
    · rintro b (rfl | hb)
      · exact t12
      · exact hb.elim
    · exact ⟨fun b hb => hb.elim, List.Pairwise.nil⟩
  have hpermL : List.Perm
      [recOf (db.nextId + 4) a5, recOf (db.nextId + 3) a4,
        recOf (db.nextId + 2) a3, recOf (db.nextId + 1) a2, recOf db.nextId a1]
      rows := by
    have hrev : ([recOf db.nextId a1, recOf (db.nextId + 1) a2,
        recOf (db.nextId + 2) a3, recOf (db.nextId + 3) a4,
        recOf (db.nextId + 4) a5]).reverse
        = [recOf (db.nextId + 4) a5, recOf (db.nextId + 3) a4,
          recOf (db.nextId + 2) a3, recOf (db.nextId + 1) a2,
          recOf db.nextId a1] := rfl
    rw [← hrev]
    refine (List.reverse_perm _).trans ?_
    rw [← hfilter]
    exact hperm.symm
  rw [tsDescSorted] at hsort
  exact (perm_sorted_unique (fun r => r.timestamp.data) _ rows hpermL hstrict hsort).symm

/-- A fixed-shape log call for the C1 witness. -/
def c1arg (op ts : String) : LogArgs :=
  ⟨"u", op, none, none, none, "SUCCESS", none, ts⟩

/-- C1 witness: five sequential appends with strictly increasing
timestamps admit exactly the reverse-insertion-order result. -/
theorem query_newest_first_witness :
    (∀ r ∈ (⟨1, []⟩ : DB).records, r.user_id ≠ "u")
    ∧ listLtChars (c1arg "OP1" "t1").timestamp.data
        (c1arg "OP2" "t2").timestamp.data = true
    ∧ rows_admissible
        (appendLogs ⟨1, []⟩ [c1arg "OP1" "t1", c1arg "OP2" "t2",
          c1arg "OP3" "t3", c1arg "OP4" "t4", c1arg "OP5" "t5"]) "u"
        [recOf 5 (c1arg "OP5" "t5"), recOf 4 (c1arg "OP4" "t4"),
         recOf 3 (c1arg "OP3" "t3"), recOf 2 (c1arg "OP2" "t2"),
         recOf 1 (c1arg "OP1" "t1")]
    ∧ [recOf 5 (c1arg "OP5" "t5"), recOf 4 (c1arg "OP4" "t4"),
       recOf 3 (c1arg "OP3" "t3"), recOf 2 (c1arg "OP2" "t2"),
       recOf 1 (c1arg "OP1" "t1")]
      = [recOf ((⟨1, []⟩ : DB).nextId + 4) (c1arg "OP5" "t5"),
         recOf ((⟨1, []⟩ : DB).nextId + 3) (c1arg "OP4" "t4"),
         recOf ((⟨1, []⟩ : DB).nextId + 2) (c1arg "OP3" "t3"),
         recOf ((⟨1, []⟩ : DB).nextId + 1) (c1arg "OP2" "t2"),
         recOf (⟨1, []⟩ : DB).nextId (c1arg "OP1" "t1")] := by
  have hfilter : List.filter (fun r => r.user_id == "u")
      (appendLogs ⟨1, []⟩ [c1arg "OP1" "t1", c1arg "OP2" "t2",
        c1arg "OP3" "t3", c1arg "OP4" "t4", c1arg "OP5" "t5"]).records
      = [recOf 1 (c1arg "OP1" "t1"), recOf 2 (c1arg "OP2" "t2"),
         recOf 3 (c1arg "OP3" "t3"), recOf 4 (c1arg "OP4" "t4"),
         recOf 5 (c1arg "OP5" "t5")] := by decide
  have hadm : rows_admissible
      (appendLogs ⟨1, []⟩ [c1arg "OP1" "t1", c1arg "OP2" "t2",
        c1arg "OP3" "t3", c1arg "OP4" "t4", c1arg "OP5" "t5"]) "u"
      [recOf 5 (c1arg "OP5" "t5"), recOf 4 (c1arg "OP4" "t4"),
       recOf 3 (c1arg "OP3" "t3"), recOf 2 (c1arg "OP2" "t2"),
       recOf 1 (c1arg "OP1" "t1")] := by
    constructor
    · rw [hfilter]
      simpa using List.reverse_perm
        [recOf 1 (c1arg "OP1" "t1"), recOf 2 (c1arg "OP2" "t2"),
         recOf 3 (c1arg "OP3" "t3"), recOf 4 (c1arg "OP4" "t4"),
         recOf 5 (c1arg "OP5" "t5")]
    · rw [tsDescSorted]
      refine List.Pairwise.cons ?_ (List.Pairwise.cons ?_ (List.Pairwise.cons ?_
        (List.Pairwise.cons ?_ (List.pairwise_singleton _ _))))
      all_goals intro b hb
      all_goals fin_cases hb <;> decide
  refine ⟨by simp, by decide, hadm, ?_⟩
  exact query_newest_first ⟨1, []⟩ "u" (c1arg "OP1" "t1") (c1arg "OP2" "t2")
    (c1arg "OP3" "t3") (c1arg "OP4" "t4") (c1arg "OP5" "t5")
    (by simp) rfl rfl rfl rfl rfl
    (by decide) (by decide) (by decide) (by decide) _ hadm

/-! ## C3: onboarding pipeline failure and PENDING_LLM semantics -/

/-- C3.  In `pipeline_onboard_user_with_context_to_seed`: if context
aggregation raises, the run appends the USER_CREATED record and then
exactly one FAILED record for the aggregation step, performs no further
step (filesystem unchanged after user creation, nothing else logged), and
propagates the exception; if aggregation and designer-input preparation
both succeed, the run appends USER_CREATED, CONTEXT_AGGREGATED and a
final DESIGNER_INPUT_PREPARED record with status PENDING_LLM, and returns
the user id normally. -/
theorem onboard_pipeline_steps (w : World) (user_identifier : String)
    (ct : Moment) (l1 l2 l3 : String) :
    (∀ e, get_user_context_string (create_user w.fs user_identifier ct).1
        (create_user w.fs user_identifier ct).2 = .error e →
      pipeline_onboard_user_with_context_to_seed w user_identifier ct l1 l2 l3
        = (⟨(create_user w.fs user_identifier ct).1,
            ⟨w.db.nextId + 2,
             w.db.records
               ++ [recOf w.db.nextId
                     ⟨(create_user w.fs user_identifier ct).2, "USER_CREATED",
                      some "onboard_user_with_context_to_seed",
                      some [("user_identifier", .str user_identifier)],
                      some [("user_id", .str (create_user w.fs user_identifier ct).2)],
                      "SUCCESS", none, l1⟩,
                   recOf (w.db.nextId + 1)
                     ⟨(create_user w.fs user_identifier ct).2,
                      "CONTEXT_AGGREGATION_FAILED",
                      some "onboard_user_with_context_to_seed", none, none,
                      "FAILED", some (errStr e), l2⟩]⟩⟩,
           .error e))
    ∧ (∀ cs di, get_user_context_string (create_user w.fs user_identifier ct).1
          (create_user w.fs user_identifier ct).2 = .ok cs →
        prepare_designer_llm_input (create_user w.fs user_identifier ct).1 cs
          = .ok di →
        pipeline_onboard_user_with_context_to_seed w user_identifier ct l1 l2 l3
          = (⟨(create_user w.fs user_identifier ct).1,
              ⟨w.db.nextId + 3,
               w.db.records
                 ++ [recOf w.db.nextId
                       ⟨(create_user w.fs user_identifier ct).2, "USER_CREATED",
                        some "onboard_user_with_context_to_seed",
                        some [("user_identifier", .str user_identifier)],
                        some [("user_id", .str (create_user w.fs user_identifier ct).2)],
                        "SUCCESS", none, l1⟩,
                     recOf (w.db.nextId + 1)
                       ⟨(create_user w.fs user_identifier ct).2,
                        "CONTEXT_AGGREGATED",
                        some "onboard_user_with_context_to_seed", none,
                        some [("context_length", .int cs.length)],
                        "SUCCESS", none, l2⟩,
                     recOf (w.db.nextId + 2)
                       ⟨(create_user w.fs user_identifier ct).2,
                        "DESIGNER_INPUT_PREPARED",
                        some "onboard_user_with_context_to_seed", none,
                        some [("designer_input_length", .int di.length),
                              ("context_included", .bool (decide (0 < cs.length)))],
                        "PENDING_LLM", some "Ready for external LLM processing",
                        l3⟩]⟩⟩,
             .ok (create_user w.fs user_identifier ct).2)) := by
  constructor
  · intro e he
    rw [pipeline_onboard_user_with_context_to_seed]
    simp only [he]
    simp [log_operation, recOf, mkRecord, List.append_assoc]
  · intro cs di hcs hdi
    rw [pipeline_onboard_user_with_context_to_seed]
    simp only [hcs, hdi]
    simp [log_operation, recOf, mkRecord, List.append_assoc]

/-- The C3 failure-branch start state: an unreadable file (modelling an
OS-level read fault) sits at the path the created user's context
directory will have. -/
def c3FailFS : FS :=
  ⟨[], [("data/users/179da6179a4552e5/context/a.txt", none)]⟩

/-- The C3 success-branch start state: only the designer template
exists. -/
def c3OkFS : FS :=
  ⟨[], [("base_prompts/synai_designer.xml", some "T \x7bCONTEXT\x7d E")]⟩

/-- C3 witness: a concrete failing aggregation aborts after exactly the
FAILED record; a concrete successful run ends on PENDING_LLM and returns
the user id. -/
theorem onboard_pipeline_steps_witness :
    (get_user_context_string (create_user c3FailFS "alice" ⟨"1700.5", 1700⟩).1
        (create_user c3FailFS "alice" ⟨"1700.5", 1700⟩).2
      = .error (.ioError
          "Permission denied: data/users/179da6179a4552e5/context/a.txt"))
    ∧ (pipeline_onboard_user_with_context_to_seed ⟨c3FailFS, ⟨1, []⟩⟩ "alice"
        ⟨"1700.5", 1700⟩ "l1" "l2" "l3").2
      = .error (.ioError
          "Permission denied: data/users/179da6179a4552e5/context/a.txt")
    ∧ ((pipeline_onboard_user_with_context_to_seed ⟨c3FailFS, ⟨1, []⟩⟩ "alice"
        ⟨"1700.5", 1700⟩ "l1" "l2" "l3").1.db.records.map
          (fun r => (r.operation_type, r.status)))
      = [("USER_CREATED", "SUCCESS"), ("CONTEXT_AGGREGATION_FAILED", "FAILED")]
    ∧ (get_user_context_string (create_user c3OkFS "alice" ⟨"1700.5", 1700⟩).1
        (create_user c3OkFS "alice" ⟨"1700.5", 1700⟩).2 = .ok "")
    ∧ (prepare_designer_llm_input (create_user c3OkFS "alice" ⟨"1700.5", 1700⟩).1 ""
        = .ok "T  E")
    ∧ (pipeline_onboard_user_with_context_to_seed ⟨c3OkFS, ⟨1, []⟩⟩ "alice"
        ⟨"1700.5", 1700⟩ "l1" "l2" "l3").2
      = .ok (create_user c3OkFS "alice" ⟨"1700.5", 1700⟩).2
    ∧ ((pipeline_onboard_user_with_context_to_seed ⟨c3OkFS, ⟨1, []⟩⟩ "alice"
        ⟨"1700.5", 1700⟩ "l1" "l2" "l3").1.db.records.map
          (fun r => (r.operation_type, r.status)))
      = [("USER_CREATED", "SUCCESS"), ("CONTEXT_AGGREGATED", "SUCCESS"),
         ("DESIGNER_INPUT_PREPARED", "PENDING_LLM")] := by
  have hA := (onboard_pipeline_steps ⟨c3FailFS, ⟨1, []⟩⟩ "alice"
    ⟨"1700.5", 1700⟩ "l1" "l2" "l3").1
    (.ioError "Permission denied: data/users/179da6179a4552e5/context/a.txt")
    (by decide)
  have hB := (onboard_pipeline_steps ⟨c3OkFS, ⟨1, []⟩⟩ "alice"
    ⟨"1700.5", 1700⟩ "l1" "l2" "l3").2 "" "T  E" (by decide) (by decide)
  refine ⟨by decide, ?_, ?_, by decide, by decide, ?_, ?_⟩
  · rw [hA]
  · rw [hA]; decide
  · rw [hB]
  · rw [hB]; decide

/-! ## C2: processing the designer output -/

theorem find?_append_none {α : Type} (p : α → Bool) :
    ∀ (l₁ l₂ : List α), l₁.find? p = none →
    (l₁ ++ l₂).find? p = l₂.find? p := by
  intro l₁
  induction l₁ with
  | nil => intro l₂ _; rfl
  | cons y ys ih =>
    intro l₂ h
    rw [List.find?_cons] at h
    cases hp : p y with
    | true => rw [hp] at h; exact absurd h (by simp)
    | false =>
      rw [hp] at h
      simp only [List.cons_append, List.find?_cons, hp]
      exact ih l₂ h

theorem find?_replaceFirst (p : Xml → Bool) (f : Xml → Xml) :
    ∀ (l : List Xml) (x : Xml), l.find? p = some x → p (f x) = true →
    (replaceFirst p f l).find? p = some (f x) := by
  intro l
  induction l with
  | nil => intro x h _; exact absurd h (by simp)
  | cons y ys ih =>
    intro x h hpf
    rw [List.find?_cons] at h
    cases hp : p y with
    | true =>
      rw [hp] at h
      have hxy : y = x := by
        simpa using h
      subst hxy
      rw [replaceFirst, if_pos hp, List.find?_cons, hpf]
    | false =>
      rw [hp] at h
      rw [replaceFirst, if_neg (by simp [hp]), List.find?_cons, hp]
      exact ih x h hpf

/-- The metadata step always leaves a metadata block whose children
include a `user_id` element carrying the supplied user id. -/
theorem addSeedMetadata_has_user_id (t : Xml) (mt uid : String) :
    ∃ m, findChild (addSeedMetadata t mt uid) "metadata" = some m
      ∧ ∃ c ∈ m.children, c.tag = "user_id" ∧ c.text = uid := by
  rw [addSeedMetadata]
  cases hf : findChild t "metadata" with
  | none =>
    refine ⟨Xml.elem "metadata" "" (metaChildren mt uid), ?_, ?_⟩
    · rw [findChild] at hf
      rw [show findChild (Xml.elem t.tag t.text
            (t.children ++ [Xml.elem "metadata" "" (metaChildren mt uid)]))
            "metadata"
          = List.find? (fun c => c.tag == "metadata")
            (t.children ++ [Xml.elem "metadata" "" (metaChildren mt uid)])
          from rfl]
      rw [find?_append_none _ _ _ hf]
      simp [metaChildren, mkTextElem, Xml.tag]
    · exact ⟨mkTextElem "user_id" uid, by simp [Xml.children, metaChildren],
        by simp [mkTextElem, Xml.tag], by simp [mkTextElem, Xml.text]⟩
  | some m0 =>
    have hp : (m0.tag == "metadata") = true := by
      rw [findChild] at hf
      have := List.find?_some hf
      exact this
    refine ⟨Xml.elem m0.tag m0.text (m0.children ++ metaChildren mt uid), ?_, ?_⟩
    · rw [findChild] at hf
      rw [show findChild (Xml.elem t.tag t.text
            (replaceFirst (fun c => c.tag == "metadata")
              (fun m => Xml.elem m.tag m.text (m.children ++ metaChildren mt uid))
              t.children)) "metadata"
          = List.find? (fun c => c.tag == "metadata")
            (replaceFirst (fun c => c.tag == "metadata")
              (fun m => Xml.elem m.tag m.text (m.children ++ metaChildren mt uid))
              t.children)
          from rfl]
      exact find?_replaceFirst _ _ t.children m0 hf (by simpa [Xml.tag] using hp)
    · refine ⟨mkTextElem "user_id" uid, ?_,
        by simp [mkTextElem, Xml.tag], by simp [mkTextElem, Xml.text]⟩
      simp [Xml.children, metaChildren]

/-- C2 counterexample: a well-formed response with root `synai` for a
user whose directory does not exist yields a FAILED record (and an
error), not the claimed SUCCESS record — the claim as stated over every
user id fails. -/
theorem process_seed_wellformed_missing_user_fails :
    validate_designer_output_xml "<synai></synai>" = true
    ∧ ((pipeline_process_seed_from_designer_output ⟨⟨[], []⟩, ⟨1, []⟩⟩ "u1"
        "<synai></synai>" ⟨"2.5", 2⟩ "MT" "LT").1.db.records.map
          (fun r => r.status)) = ["FAILED"]
    ∧ ∃ e, (pipeline_process_seed_from_designer_output ⟨⟨[], []⟩, ⟨1, []⟩⟩ "u1"
        "<synai></synai>" ⟨"2.5", 2⟩ "MT" "LT").2 = .error e := by
  refine ⟨by decide, by decide, ⟨.valueError "User directory not found for user_id: u1", by decide⟩⟩

/-- C2 (amended).  `pipeline_process_seed_from_designer_output`: a
response that is not well-formed XML with root `synai` makes the run
append exactly one FAILED record, whose note is non-empty (no SUCCESS
record, the error propagates); a well-formed response with root `synai`
for a user whose directory exists, whose `seeds` subdirectory exists, and
with no directory sitting at the generated seed path, makes the run
append exactly one SUCCESS record whose output reference carries the
saved seed path, save the serialized tree at that path, and that tree's
metadata block contains a `user_id` element equal to the supplied user
id. -/
theorem process_seed_outcomes (w : World) (user_id resp : String)
    (seedTime : Moment) (metaTs logTs : String) :
    (validate_designer_output_xml resp = false →
      pipeline_process_seed_from_designer_output w user_id resp seedTime metaTs logTs
        = (⟨w.fs,
            ⟨w.db.nextId + 1,
             w.db.records
               ++ [recOf w.db.nextId
                     ⟨user_id, "SEED_GENERATION_FAILED",
                      some "process_seed_from_designer_output",
                      some [("designer_response_length", .int resp.length)],
                      none, "FAILED",
                      some ("Error: Invalid XML response from Designer LLM. Response must be well-formed XML with root element 'synai'"),
                      logTs⟩]⟩⟩,
           .error (.valueError ("Invalid XML response from Designer LLM. "
             ++ "Response must be well-formed XML with root element 'synai'"))))
    ∧ (∀ t, fromstring resp = some t → t.tag = "synai" →
        pathExists w.fs (userBase user_id) = true →
        w.fs.dirs.contains (pathJoin (userBase user_id) "seeds") = true →
        w.fs.dirs.contains (pathJoin (pathJoin (userBase user_id) "seeds")
          ("seed_prompt_" ++ generate_hash (user_id ++ seedTime.asStr) 8
            ++ "_" ++ String.mk (natDigs seedTime.whole) ++ ".xml")) = false →
        pipeline_process_seed_from_designer_output w user_id resp seedTime metaTs logTs
          = (⟨⟨w.fs.dirs,
               (pathJoin (pathJoin (userBase user_id) "seeds")
                  ("seed_prompt_" ++ generate_hash (user_id ++ seedTime.asStr) 8
                    ++ "_" ++ String.mk (natDigs seedTime.whole) ++ ".xml"),
                some (xmlToString (addSeedMetadata t metaTs user_id)))
               :: w.fs.files.filter (fun e => !(e.1
                    == pathJoin (pathJoin (userBase user_id) "seeds")
                      ("seed_prompt_" ++ generate_hash (user_id ++ seedTime.asStr) 8
                        ++ "_" ++ String.mk (natDigs seedTime.whole) ++ ".xml")))⟩,
              ⟨w.db.nextId + 1,
               w.db.records
                 ++ [recOf w.db.nextId
                       ⟨user_id, "SEED_PROMPT_GENERATED",
                        some "process_seed_from_designer_output",
                        some [("designer_response_length", .int resp.length)],
                        some [("seed_path", .str (pathJoin (pathJoin (userBase user_id) "seeds")
                          ("seed_prompt_" ++ generate_hash (user_id ++ seedTime.asStr) 8
                            ++ "_" ++ String.mk (natDigs seedTime.whole) ++ ".xml")))],
                        "SUCCESS", none, logTs⟩]⟩⟩,
             .ok (pathJoin (pathJoin (userBase user_id) "seeds")
               ("seed_prompt_" ++ generate_hash (user_id ++ seedTime.asStr) 8
                 ++ "_" ++ String.mk (natDigs seedTime.whole) ++ ".xml")))
        ∧ ∃ m, findChild (addSeedMetadata t metaTs user_id) "metadata" = some m
            ∧ ∃ c ∈ m.children, c.tag = "user_id" ∧ c.text = user_id) := by
  constructor
  · intro hval
    rw [pipeline_process_seed_from_designer_output]
    rw [show process_designer_llm_output w.fs resp user_id seedTime metaTs
        = .error (.valueError ("Invalid XML response from Designer LLM. "
          ++ "Response must be well-formed XML with root element 'synai'")) from by
      rw [process_designer_llm_output, hval]
      rfl]
    simp [log_operation, recOf, mkRecord, errStr, List.append_assoc]
  · intro t hparse htag huser hseeds hnodir
    have hval : validate_designer_output_xml resp = true := by
      rw [validate_designer_output_xml, hparse]
      simp [htag]
    have hwf : write_file w.fs
        (pathJoin (pathJoin (userBase user_id) "seeds")
          ("seed_prompt_" ++ generate_hash (user_id ++ seedTime.asStr) 8
            ++ "_" ++ String.mk (natDigs seedTime.whole) ++ ".xml"))
        (xmlToString (addSeedMetadata t metaTs user_id))
        = .ok ⟨w.fs.dirs,
            (pathJoin (pathJoin (userBase user_id) "seeds")
              ("seed_prompt_" ++ generate_hash (user_id ++ seedTime.asStr) 8
                ++ "_" ++ String.mk (natDigs seedTime.whole) ++ ".xml"),
             some (xmlToString (addSeedMetadata t metaTs user_id)))
            :: w.fs.files.filter (fun e => !(e.1
                 == pathJoin (pathJoin (userBase user_id) "seeds")
                   ("seed_prompt_" ++ generate_hash (user_id ++ seedTime.asStr) 8
                     ++ "_" ++ String.mk (natDigs seedTime.whole) ++ ".xml")))⟩ := by
      rw [write_file, hnodir,
        dirname_pathJoin _ _ (seed_filename_no_slash user_id seedTime), hseeds]
      simp
    have hsave : save_user_prompt w.fs user_id
        ("seed_prompt_" ++ generate_hash (user_id ++ seedTime.asStr) 8
          ++ "_" ++ String.mk (natDigs seedTime.whole) ++ ".xml")
        (xmlToString (addSeedMetadata t metaTs user_id)) "seeds"
        = .ok (⟨w.fs.dirs,
            (pathJoin (pathJoin (userBase user_id) "seeds")
              ("seed_prompt_" ++ generate_hash (user_id ++ seedTime.asStr) 8
                ++ "_" ++ String.mk (natDigs seedTime.whole) ++ ".xml"),
             some (xmlToString (addSeedMetadata t metaTs user_id)))
            :: w.fs.files.filter (fun e => !(e.1
                 == pathJoin (pathJoin (userBase user_id) "seeds")
                   ("seed_prompt_" ++ generate_hash (user_id ++ seedTime.asStr) 8
                     ++ "_" ++ String.mk (natDigs seedTime.whole) ++ ".xml")))⟩,
          pathJoin (pathJoin (userBase user_id) "seeds")
            ("seed_prompt_" ++ generate_hash (user_id ++ seedTime.asStr) 8
              ++ "_" ++ String.mk (natDigs seedTime.whole) ++ ".xml")) := by
      simp [save_user_prompt, get_user_paths, huser, user_paths_list,
        List.lookup, Bind.bind, Except.bind, hwf, Except.map]
    refine ⟨?_, addSeedMetadata_has_user_id t metaTs user_id⟩
    rw [pipeline_process_seed_from_designer_output]
    rw [show process_designer_llm_output w.fs resp user_id seedTime metaTs
        = .ok (⟨w.fs.dirs,
            (pathJoin (pathJoin (userBase user_id) "seeds")
              ("seed_prompt_" ++ generate_hash (user_id ++ seedTime.asStr) 8
                ++ "_" ++ String.mk (natDigs seedTime.whole) ++ ".xml"),
             some (xmlToString (addSeedMetadata t metaTs user_id)))
            :: w.fs.files.filter (fun e => !(e.1
                 == pathJoin (pathJoin (userBase user_id) "seeds")
                   ("seed_prompt_" ++ generate_hash (user_id ++ seedTime.asStr) 8
                     ++ "_" ++ String.mk (natDigs seedTime.whole) ++ ".xml")))⟩,
          pathJoin (pathJoin (userBase user_id) "seeds")
            ("seed_prompt_" ++ generate_hash (user_id ++ seedTime.asStr) 8
              ++ "_" ++ String.mk (natDigs seedTime.whole) ++ ".xml")) from by
      rw [process_designer_llm_output, hval]
      simp only [Bool.not_true, Bool.false_eq_true, if_false, hparse]
      exact hsave]
    simp [log_operation, recOf, mkRecord, List.append_assoc]

/-- C2 witness: a malformed response yields exactly one FAILED record
with a non-empty note; a well-formed `synai` response for an existing
user whose `seeds` subdirectory exists yields exactly one SUCCESS record
and the stamped metadata block. -/
theorem process_seed_outcomes_witness :
    validate_designer_output_xml "bad" = false
    ∧ ((pipeline_process_seed_from_designer_output ⟨⟨[], []⟩, ⟨1, []⟩⟩ "u1" "bad"
        ⟨"2.5", 2⟩ "MT" "LT").1.db.records.map (fun r => (r.status, r.notes)))
      = [("FAILED", some ("Error: Invalid XML response from Designer LLM. Response must be well-formed XML with root element 'synai'"))]
    ∧ fromstring "<synai></synai>" = some (Xml.elem "synai" "" [])
    ∧ pathExists ⟨[userBase "u1", pathJoin (userBase "u1") "seeds"], []⟩
        (userBase "u1") = true
    ∧ ([userBase "u1", pathJoin (userBase "u1") "seeds"].contains
        (pathJoin (userBase "u1") "seeds")) = true
    ∧ ([userBase "u1", pathJoin (userBase "u1") "seeds"].contains
        (pathJoin (pathJoin (userBase "u1") "seeds")
          ("seed_prompt_" ++ generate_hash ("u1" ++ "2.5") 8 ++ "_"
            ++ String.mk (natDigs 2) ++ ".xml"))) = false
    ∧ (pipeline_process_seed_from_designer_output
        ⟨⟨[userBase "u1", pathJoin (userBase "u1") "seeds"], []⟩, ⟨1, []⟩⟩
        "u1" "<synai></synai>" ⟨"2.5", 2⟩ "MT" "LT").2
      = .ok (pathJoin (pathJoin (userBase "u1") "seeds")
          ("seed_prompt_" ++ generate_hash ("u1" ++ "2.5") 8 ++ "_"
            ++ String.mk (natDigs 2) ++ ".xml"))
    ∧ ((pipeline_process_seed_from_designer_output
        ⟨⟨[userBase "u1", pathJoin (userBase "u1") "seeds"], []⟩, ⟨1, []⟩⟩
        "u1" "<synai></synai>" ⟨"2.5", 2⟩ "MT" "LT").1.db.records.map
          (fun r => r.status))
      = ["SUCCESS"]
    ∧ ∃ m, findChild (addSeedMetadata (Xml.elem "synai" "" []) "MT" "u1")
          "metadata" = some m
        ∧ ∃ c ∈ m.children, c.tag = "user_id" ∧ c.text = "u1" := by
  have hA := (process_seed_outcomes ⟨⟨[], []⟩, ⟨1, []⟩⟩ "u1" "bad"
    ⟨"2.5", 2⟩ "MT" "LT").1 (by decide)
  have hB := (process_seed_outcomes
    ⟨⟨[userBase "u1", pathJoin (userBase "u1") "seeds"], []⟩, ⟨1, []⟩⟩ "u1"
    "<synai></synai>" ⟨"2.5", 2⟩ "MT" "LT").2
    (Xml.elem "synai" "" []) rfl rfl (by decide) (by decide) (by decide)
  refine ⟨by decide, ?_, rfl, by decide, by decide, by decide, ?_, ?_, hB.2⟩
  · rw [hA]; decide
  · rw [hB.1]
  · rw [hB.1]; decide

end SPCF
